import Mathlib

/-!
Verification of the runtime core of the `orbtk` widget manager against its
natural-language specification.

The development shallowly embeds the two source files
`src/application/widget_manager.rs` and `crates/widgets/src/slider.rs`.
Rust `u32` values are modelled as `Nat` (no arithmetic that can overflow
occurs in the embedded code), `i32` as `Int`, `f64` as `ℚ` together with an
explicit round-half-away-from-zero function, `HashMap` as an association
list with overwriting insertion, and panics / fallible calls as
`Option` / `Except` results.

Collaborator code that the two source files use but that is not part of the
source tree (the `World` pass scheduler, the `Tree` structure, and the
`LayoutSystem` driver) is modelled from the specification's words; every
such definition carries a doc comment starting with `Modelled from the
spec:`.
-/

namespace Orbtk

/-- BoxConstraints as used by the layout closure in `widget_manager.rs`
(`min_width`, `max_width`, `min_height`, `max_height`, all `u32`). -/
structure BoxConstraints where
  min_width : Nat
  max_width : Nat
  min_height : Nat
  max_height : Nat
deriving DecidableEq, Repr

/-- LayoutResult from `widget_manager.rs`: either a final `Size(width, height)`
or a deferral `RequestChild(child, childConstraints)`. -/
inductive LayoutResult where
  | Size : Nat × Nat → LayoutResult
  | RequestChild : Nat → BoxConstraints → LayoutResult
deriving DecidableEq, Repr

/-- The mutable `HashMap<Entity, (i32, i32)>` of child positions, modelled as
an association list with overwriting insertion. -/
abbrev PosMap := List (Nat × (Int × Int))

/-- Insertion into a `PosMap` with `HashMap::insert` semantics: any previous
binding of the same key is replaced. -/
def posInsert (m : PosMap) (e : Nat) (v : Int × Int) : PosMap :=
  (e, v) :: m.filter (fun p => p.1 != e)

/-- The default layout closure attached by `WidgetManager::root` to every
entity it creates (`widget_manager.rs`, lines 82-97).  The Rust closure
indexes `children[0]` in the forced-size branch without a bounds check, so
the embedding returns `none` (a panic) when a forced size is supplied
together with an empty child list.  In the no-forced-size branch the source
first returns `Size(bc.min_width, bc.min_height)` when `children.len() == 0`
and otherwise `RequestChild(children[0], *bc)`. -/
def default_layout (bc : BoxConstraints) (children : List Nat)
    (children_pos : PosMap) (size : Option (Nat × Nat)) :
    Option (LayoutResult × PosMap) :=
  match size with
  | some s =>
    match children with
    | [] => none
    | c :: _ => some (LayoutResult.Size s, posInsert children_pos c (0, 0))
  | none =>
    match children with
    | [] => some (LayoutResult.Size (bc.min_width, bc.min_height), children_pos)
    | c :: _ => some (LayoutResult.RequestChild c bc, children_pos)

/-- Claim C1: the default layout function satisfies the spec's reference
definition.  For every constraints `bc` and position map `pos`: (1) given a
forced size `s` and the sole child `c`, it records `c ↦ (0, 0)` in the
position map and returns `Size s`; (2) with exactly one child and no forced
size it returns `RequestChild c bc` under the same constraints; (3) with no
children and no forced size it returns `Size (bc.min_width, bc.min_height)`. -/
theorem default_layout_matches_spec (bc : BoxConstraints) (pos : PosMap) :
    (∀ s c, default_layout bc [c] pos (some s) =
      some (LayoutResult.Size s, posInsert pos c (0, 0))) ∧
    (∀ c, default_layout bc [c] pos none =
      some (LayoutResult.RequestChild c bc, pos)) ∧
    default_layout bc [] pos none =
      some (LayoutResult.Size (bc.min_width, bc.min_height), pos) := by
  refine ⟨fun s c => rfl, fun c => rfl, rfl⟩

/-- Claim C10: the default layout function is total exactly under the
precondition that a forced size is never supplied together with an empty
child list.  With that precondition the out-of-bounds `children[0]` branch is
unreachable and the function returns a result; without it — forced size with
zero children — the function is partial (the embedding yields `none`, the
source panics on `children[0]`). -/
theorem default_layout_partiality (bc : BoxConstraints) (pos : PosMap) :
    (∀ children size, (children ≠ [] ∨ size = none) →
      (default_layout bc children pos size).isSome) ∧
    (∀ s, default_layout bc [] pos (some s) = none) := by
  constructor
  · intro children size h
    match size, children with
    | some s, [] => simp at h
    | some s, c :: rest => simp [default_layout]
    | none, [] => simp [default_layout]
    | none, c :: rest => simp [default_layout]
  · intro s
    rfl

/-- Witness for C10 at a concrete input: a singleton child list with a forced
size is accepted, and the empty list with a forced size is the panic case. -/
theorem default_layout_partiality_witness :
    (default_layout ⟨0, 200, 0, 50⟩ [3] [] (some (20, 20))).isSome ∧
    default_layout ⟨0, 200, 0, 50⟩ [] [] (some (20, 20)) = none := by
  exact ⟨(default_layout_partiality ⟨0, 200, 0, 50⟩ []).1 [3] (some (20, 20))
      (Or.inl (by decide)),
    (default_layout_partiality ⟨0, 200, 0, 50⟩ []).2 (20, 20)⟩

/-!
Slider widget (`crates/widgets/src/slider.rs`).  `f64` values are modelled
as rationals; `f64::round` (round half away from zero) is `rustRound`.
-/

/-- Rust `f64::round`: rounds to the nearest integer, halves away from zero.
On nonnegative input this agrees with Mathlib's `round` (half up). -/
def rustRound (x : ℚ) : ℚ :=
  if 0 ≤ x then ((round x : ℤ) : ℚ) else -((round (-x) : ℤ) : ℚ)

/-- Mirror of `calculate_thumb_x` in `slider.rs`:
`(mouse_x - slider_x - thumb_width).max(0.0).min(track_width - thumb_width).round()`. -/
def calculate_thumb_x (mouse_x thumb_width slider_x track_width : ℚ) : ℚ :=
  rustRound (min (max (mouse_x - slider_x - thumb_width) 0)
    (track_width - thumb_width))

/-- Mirror of `calculate_value` in `slider.rs`:
`(thumb_x / (track_width - thumb_width) * (maximum - minimum)).round()`. -/
def calculate_value (thumb_x minimum maximum thumb_width track_width : ℚ) : ℚ :=
  rustRound (thumb_x / (track_width - thumb_width) * (maximum - minimum))

/-- The slice of the widget context read and written by
`SliderState::update_post_layout`: the `pressed` flag of the thumb, the
bounds widths of the thumb and track children, the slider's position `x`,
the `minimum`, `maximum` and `value` properties, the thumb's left margin,
and the count of `ChangedEvent`s pushed onto the outbound queue. -/
structure SliderCtx where
  pressed : Bool
  thumb_width : ℚ
  track_width : ℚ
  slider_x : ℚ
  minimum : ℚ
  maximum : ℚ
  value : ℚ
  thumb_margin_left : ℚ
  changed_events : Nat
deriving DecidableEq, Repr

/-- Mirror of `SliderState::update_post_layout` in `slider.rs`.  The pending
`SliderAction::Move { mouse_x }` is the `Option ℚ` argument; the returned
pair is the new pending action (always cleared) and the updated context.
When the thumb is pressed it computes `calculate_thumb_x`, stores it into
the thumb's left margin, stores `calculate_value` into `value`, and pushes a
`ChangedEvent`. -/
def update_post_layout (action : Option ℚ) (ctx : SliderCtx) :
    Option ℚ × SliderCtx :=
  match action with
  | none => (none, ctx)
  | some mouse_x =>
    if ctx.pressed then
      let thumb_x :=
        calculate_thumb_x mouse_x ctx.thumb_width ctx.slider_x ctx.track_width
      let v :=
        calculate_value thumb_x ctx.minimum ctx.maximum ctx.thumb_width
          ctx.track_width
      (none, { ctx with
        thumb_margin_left := thumb_x
        value := v
        changed_events := ctx.changed_events + 1 })
    else (none, ctx)

/-- Rounding is monotone on rationals. -/
theorem round_le_round_of_le {x y : ℚ} (h : x ≤ y) : round x ≤ round y := by
  rw [round_eq, round_eq]
  exact Int.floor_le_floor (by linarith)

/-- On nonnegative input `rustRound` is Mathlib's `round`. -/
theorem rustRound_of_nonneg {x : ℚ} (h : 0 ≤ x) :
    rustRound x = ((round x : ℤ) : ℚ) := by
  simp [rustRound, h]

/-- Counterexample to claim C8 as stated: with `minimum = -50`,
`maximum = 50`, `thumb_width = 32`, `track_width = 100`, `slider_x = 0` and
`mouse_x = 1000` (thumb pressed), `update_post_layout` stores the value
`100`, which does not lie within `[minimum, maximum] = [-50, 50]`.  This is
the behaviour the source's own unit test
`assert_eq!(100.0, calculate_value(68.0, -50.0, 50.0, 32.0, 100.0))`
records: `calculate_value` scales into `[0, maximum - minimum]` and never
shifts by `minimum`. -/
theorem slider_value_out_of_range :
    ((update_post_layout (some 1000)
        ⟨true, 32, 100, 0, -50, 50, 0, 0, 0⟩).2.value = 100) ∧
    ¬(((-50 : ℚ) ≤ (update_post_layout (some 1000)
          ⟨true, 32, 100, 0, -50, 50, 0, 0, 0⟩).2.value) ∧
      ((update_post_layout (some 1000)
          ⟨true, 32, 100, 0, -50, 50, 0, 0, 0⟩).2.value ≤ 50)) := by
  have hx : calculate_thumb_x 1000 32 0 100 = 68 := by
    have : min (max ((1000 : ℚ) - 0 - 32) 0) (100 - 32) = 68 := by norm_num
    rw [calculate_thumb_x, this, rustRound_of_nonneg (by norm_num)]
    norm_num [round_eq]
  have hv : calculate_value 68 (-50) 50 32 100 = 100 := by
    have : (68 : ℚ) / (100 - 32) * (50 - (-50)) = 100 := by norm_num
    rw [calculate_value, this, rustRound_of_nonneg (by norm_num)]
    norm_num [round_eq]
  have hstore : (update_post_layout (some 1000)
      ⟨true, 32, 100, 0, -50, 50, 0, 0, 0⟩).2.value = 100 := by
    simp [update_post_layout, hx, hv]
  exact ⟨hstore, by rw [hstore]; norm_num⟩

/-- Claim C8, amended: for a pressed thumb, every `mouse_x`, every
`minimum ≤ maximum` and every `0 < thumb_width < track_width` such that
`track_width - thumb_width` and `maximum - minimum` are whole numbers (as in
all of the source's own tests), the value stored by `update_post_layout`
lies within `[0, maximum - minimum]`: the computation clamps to the travel
range scaled by the span of the range, but never shifts by `minimum`. -/
theorem slider_value_within_shifted_range (mouse_x : ℚ) (ctx : SliderCtx)
    (hp : ctx.pressed = true) (hmm : ctx.minimum ≤ ctx.maximum)
    (ht : 0 < ctx.thumb_width) (htw : ctx.thumb_width < ctx.track_width)
    (hk : ∃ k : ℤ, (k : ℚ) = ctx.track_width - ctx.thumb_width)
    (hj : ∃ j : ℤ, (j : ℚ) = ctx.maximum - ctx.minimum) :
    0 ≤ (update_post_layout (some mouse_x) ctx).2.value ∧
    (update_post_layout (some mouse_x) ctx).2.value ≤
      ctx.maximum - ctx.minimum := by
  obtain ⟨k, hk⟩ := hk
  obtain ⟨j, hj⟩ := hj
  have hkpos : (0 : ℚ) < ctx.track_width - ctx.thumb_width := by linarith
  have hjnn : (0 : ℚ) ≤ ctx.maximum - ctx.minimum := by linarith
  set c := min (max (mouse_x - ctx.slider_x - ctx.thumb_width) 0)
    (ctx.track_width - ctx.thumb_width) with hc
  have hc0 : 0 ≤ c := le_min (le_max_right _ _) (le_of_lt hkpos)
  have hck : c ≤ ctx.track_width - ctx.thumb_width := min_le_right _ _
  have htx : calculate_thumb_x mouse_x ctx.thumb_width ctx.slider_x
      ctx.track_width = ((round c : ℤ) : ℚ) := by
    rw [calculate_thumb_x, ← hc, rustRound_of_nonneg hc0]
  have htx0 : (0 : ℚ) ≤ ((round c : ℤ) : ℚ) := by
    have h0 : round (0 : ℚ) ≤ round c := round_le_round_of_le hc0
    rw [round_zero] at h0
    exact_mod_cast h0
  have htxk : ((round c : ℤ) : ℚ) ≤ ctx.track_width - ctx.thumb_width := by
    have h1 : round c ≤ round ((k : ℚ)) := round_le_round_of_le (hk ▸ hck)
    rw [round_intCast] at h1
    calc ((round c : ℤ) : ℚ) ≤ (k : ℚ) := by exact_mod_cast h1
      _ = ctx.track_width - ctx.thumb_width := hk
  set tx : ℚ := ((round c : ℤ) : ℚ) with htxdef
  have hratio0 : 0 ≤ tx / (ctx.track_width - ctx.thumb_width) :=
    div_nonneg htx0 (le_of_lt hkpos)
  have hratio1 : tx / (ctx.track_width - ctx.thumb_width) ≤ 1 :=
    (div_le_one hkpos).mpr htxk
  have hp0 : 0 ≤ tx / (ctx.track_width - ctx.thumb_width) *
      (ctx.maximum - ctx.minimum) := mul_nonneg hratio0 hjnn
  have hp1 : tx / (ctx.track_width - ctx.thumb_width) *
      (ctx.maximum - ctx.minimum) ≤ ctx.maximum - ctx.minimum := by
    calc tx / (ctx.track_width - ctx.thumb_width) *
        (ctx.maximum - ctx.minimum) ≤ 1 * (ctx.maximum - ctx.minimum) :=
          mul_le_mul_of_nonneg_right hratio1 hjnn
      _ = ctx.maximum - ctx.minimum := one_mul _
  have hval : calculate_value tx ctx.minimum ctx.maximum ctx.thumb_width
      ctx.track_width = ((round (tx / (ctx.track_width - ctx.thumb_width) *
        (ctx.maximum - ctx.minimum)) : ℤ) : ℚ) := by
    rw [calculate_value, rustRound_of_nonneg hp0]
  have hv0 : (0 : ℚ) ≤ ((round (tx / (ctx.track_width - ctx.thumb_width) *
      (ctx.maximum - ctx.minimum)) : ℤ) : ℚ) := by
    have h0 : round (0 : ℚ) ≤ _ := round_le_round_of_le hp0
    rw [round_zero] at h0
    exact_mod_cast h0
  have hv1 : ((round (tx / (ctx.track_width - ctx.thumb_width) *
      (ctx.maximum - ctx.minimum)) : ℤ) : ℚ) ≤
      ctx.maximum - ctx.minimum := by
    have h1 : round (tx / (ctx.track_width - ctx.thumb_width) *
        (ctx.maximum - ctx.minimum)) ≤ round ((j : ℚ)) :=
      round_le_round_of_le (hj ▸ hp1)
    rw [round_intCast] at h1
    calc ((round (tx / (ctx.track_width - ctx.thumb_width) *
        (ctx.maximum - ctx.minimum)) : ℤ) : ℚ) ≤ (j : ℚ) := by exact_mod_cast h1
      _ = ctx.maximum - ctx.minimum := hj
  have hstore : (update_post_layout (some mouse_x) ctx).2.value =
      ((round (tx / (ctx.track_width - ctx.thumb_width) *
        (ctx.maximum - ctx.minimum)) : ℤ) : ℚ) := by
    simp only [update_post_layout, hp, if_pos, htx, hval]
  exact ⟨hstore ▸ hv0, hstore ▸ hv1⟩

/-- Witness for the amended claim C8: the slider of the source's test data
(`minimum = 0`, `maximum = 100`, `thumb_width = 32`, `track_width = 100`)
with `mouse_x = 50` stores a value within `[0, 100]`. -/
theorem slider_value_within_shifted_range_witness :
    0 ≤ (update_post_layout (some 50)
      ⟨true, 32, 100, 0, 0, 100, 0, 0, 0⟩).2.value ∧
    (update_post_layout (some 50)
      ⟨true, 32, 100, 0, 0, 100, 0, 0, 0⟩).2.value ≤ 100 - 0 := by
  exact slider_value_within_shifted_range 50
    ⟨true, 32, 100, 0, 0, 100, 0, 0, 0⟩ rfl (by norm_num) (by norm_num)
    (by norm_num) ⟨68, by norm_num⟩ ⟨100, by norm_num⟩

/-- Error raised when a named descendant entity is absent during a widget's
initialization (the source panics via `.expect`, which is fatal to that
widget's setup; the spec names this failure `MissingChildEntity`). -/
inductive SliderError where
  | MissingChildEntity
deriving DecidableEq, Repr

/-- Mirror of `SliderState::init` in `slider.rs`: look up the named
descendant `"thumb"`, then `"track"`, by their declared identifiers via the
context (`ctx.entity_of_child`), failing (`.expect`, modelled as
`MissingChildEntity`) as soon as either is not found; on success both
entities are stored in the state. -/
def sliderInit (entity_of_child : String → Option Nat) :
    Except SliderError (Nat × Nat) :=
  match entity_of_child "thumb" with
  | none => Except.error SliderError.MissingChildEntity
  | some th =>
    match entity_of_child "track" with
    | none => Except.error SliderError.MissingChildEntity
    | some tr => Except.ok (th, tr)

/-- Claim C9: `SliderState`'s init hook looks up the named descendants
`"thumb"` and `"track"` and fails with `MissingChildEntity` when either is
not found; when both are found it stores exactly the two looked-up
entities. -/
theorem slider_init_missing_child (entity_of_child : String → Option Nat) :
    (entity_of_child "thumb" = none ∨ entity_of_child "track" = none →
      sliderInit entity_of_child = Except.error SliderError.MissingChildEntity) ∧
    (∀ th tr, entity_of_child "thumb" = some th →
      entity_of_child "track" = some tr →
      sliderInit entity_of_child = Except.ok (th, tr)) := by
  constructor
  · intro h
    rcases h with h | h
    · simp [sliderInit, h]
    · cases hth : entity_of_child "thumb" with
      | none => simp [sliderInit, hth]
      | some th => simp [sliderInit, hth, h]
  · intro th tr hth htr
    simp [sliderInit, hth, htr]

/-- Witness for C9: a context that declares only a `"thumb"` child makes
init fail with `MissingChildEntity`, and a context declaring both children
succeeds with the looked-up entities. -/
theorem slider_init_missing_child_witness :
    sliderInit (fun s => if s == "thumb" then some 4 else none) =
      Except.error SliderError.MissingChildEntity ∧
    sliderInit (fun s => if s == "thumb" then some 4 else
      if s == "track" then some 7 else none) = Except.ok (4, 7) := by
  exact ⟨(slider_init_missing_child _).1 (Or.inr rfl),
    (slider_init_missing_child _).2 4 7 rfl rfl⟩

/-!
System pipeline (`World` from the `dces` dependency, used by
`WidgetManager::new` and `WidgetManager::run`).  The scheduler itself is not
part of the source tree, so its execution model is taken from the spec.
-/

/-- Modelled from the spec: a registered system descriptor — "(priority:
ordering key, ..., pass logic). Built once at setup; immutable during a
run."  The pass receives the shared store (type `σ`) and returns it with
its writes applied. -/
structure SystemDescriptor (σ : Type) where
  priority : Nat
  pass : σ → σ

/-- Priority order on descriptors: lower priority runs first. -/
def descLe {σ : Type} (a b : SystemDescriptor σ) : Prop :=
  a.priority ≤ b.priority

instance {σ : Type} : DecidableRel (descLe (σ := σ)) :=
  fun a b => inferInstanceAs (Decidable (a.priority ≤ b.priority))

instance {σ : Type} : IsTotal (SystemDescriptor σ) descLe :=
  ⟨fun a b => Nat.le_total a.priority b.priority⟩

instance {σ : Type} : IsTrans (SystemDescriptor σ) descLe :=
  ⟨fun _ _ _ => Nat.le_trans⟩

/-- Modelled from the spec: the execution order of one run — descriptors
sorted by ascending priority with a stable sort, so that "lower runs first;
ties preserve registration order". -/
def executionOrder {σ : Type} (systems : List (SystemDescriptor σ)) :
    List (SystemDescriptor σ) :=
  List.insertionSort descLe systems

/-- Modelled from the spec: one pipeline run (`world.run()`) — execute the
descriptors strictly in ascending priority order, each pass completing fully
(its output store handed to the next pass) before the next begins. -/
def runPipeline {σ : Type} (systems : List (SystemDescriptor σ)) (st : σ) : σ :=
  (executionOrder systems).foldl (fun s d => d.pass s) st

/-- The store state handed to the `k`-th descriptor of the execution order:
everything before it has already run. -/
def stateBefore {σ : Type} (systems : List (SystemDescriptor σ)) (st : σ)
    (k : Nat) : σ :=
  ((executionOrder systems).take k).foldl (fun s d => d.pass s) st

/-- The two systems registered by `WidgetManager::new`
(`widget_manager.rs`, lines 24-56): the `LayoutSystem` with priority 0 and
the `RenderSystem` with priority 1, in that registration order. -/
def widgetManagerSystems {σ : Type} (layoutSystem renderSystem : σ → σ) :
    List (SystemDescriptor σ) :=
  [⟨0, layoutSystem⟩, ⟨1, renderSystem⟩]

/-- Folding a prefix of a list factors through any earlier element. -/
theorem foldl_take_factor {σ α : Type} (f : σ → α → σ) (l : List α) (st : σ)
    (i j : Nat) (hi : i < l.length) (hij : i < j) :
    (l.take j).foldl f st =
      ((l.drop (i + 1)).take (j - i - 1)).foldl f
        (f ((l.take i).foldl f st) (l.get ⟨i, hi⟩)) := by
  have hsplit : l.take j =
      l.take i ++ l.get ⟨i, hi⟩ :: (l.drop (i + 1)).take (j - i - 1) := by
    have h1 : l.take j = (l.take j).take i ++ (l.take j).drop i :=
      (List.take_append_drop i (l.take j)).symm
    have h2 : (l.take j).take i = l.take i := by
      rw [List.take_take]
      exact congrArg (l.take ·) (Nat.min_eq_left (Nat.le_of_lt hij))
    have h3 : (l.take j).drop i = (l.drop i).take (j - i) := by
      rw [List.drop_take]
    have h4 : l.drop i = l.get ⟨i, hi⟩ :: l.drop (i + 1) := by
      rw [List.get_eq_getElem]
      exact (List.getElem_cons_drop l i hi).symm
    have h5 : (l.drop i).take (j - i) =
        l.get ⟨i, hi⟩ :: (l.drop (i + 1)).take (j - i - 1) := by
      obtain ⟨m, hm⟩ : ∃ m, j - i = m + 1 := ⟨j - i - 1, by omega⟩
      have hm' : m = j - i - 1 := by omega
      rw [h4, hm, List.take_succ_cons, hm']
      simp
    rw [h1, h2, h3, h5]
  rw [hsplit, List.foldl_append, List.foldl_cons]

/-- Claim C3: passes execute strictly in ascending priority order within one
run.  For every registered pipeline and any two registered descriptors `A`
and `B` with `priority A < priority B`, `A` occupies an earlier slot of the
execution order than `B`, and the store state handed to `B` is obtained
from `A`'s output state (so every component write made by `A`'s pass is
visible to `B`'s pass).  Concretely, for the two systems registered by
`WidgetManager::new`, one run applies the render pass (priority 1) to the
output of the layout pass (priority 0). -/
theorem pipeline_priority_visibility {σ : Type}
    (systems : List (SystemDescriptor σ)) (st : σ)
    (A B : SystemDescriptor σ) (hA : A ∈ systems) (hB : B ∈ systems)
    (hAB : A.priority < B.priority)
    (layoutSystem renderSystem : σ → σ) :
    (∃ i j : Fin (executionOrder systems).length, (i : Nat) < (j : Nat) ∧
      (executionOrder systems).get i = A ∧
      (executionOrder systems).get j = B ∧
      stateBefore systems st j =
        (((executionOrder systems).drop ((i : Nat) + 1)).take
            ((j : Nat) - (i : Nat) - 1)).foldl (fun s d => d.pass s)
          (A.pass (stateBefore systems st i))) ∧
    runPipeline (widgetManagerSystems layoutSystem renderSystem) st =
      renderSystem (layoutSystem st) := by
  constructor
  · have hsorted : (executionOrder systems).Sorted descLe :=
      List.sorted_insertionSort descLe systems
    have hA' : A ∈ executionOrder systems :=
      ((List.perm_insertionSort descLe systems).mem_iff).mpr hA
    have hB' : B ∈ executionOrder systems :=
      ((List.perm_insertionSort descLe systems).mem_iff).mpr hB
    obtain ⟨i, hiA⟩ := List.mem_iff_get.mp hA'
    obtain ⟨j, hjB⟩ := List.mem_iff_get.mp hB'
    have hij : (i : Nat) < (j : Nat) := by
      rcases Nat.lt_trichotomy (i : Nat) (j : Nat) with h | h | h
      · exact h
      · exfalso
        have : A = B := by
          rw [← hiA, ← hjB]
          exact congrArg _ (Fin.ext h)
        rw [this] at hAB
        exact Nat.lt_irrefl _ hAB
      · exfalso
        have hle : descLe ((executionOrder systems).get j)
            ((executionOrder systems).get i) :=
          hsorted.rel_get_of_lt h
        rw [hiA, hjB] at hle
        exact Nat.lt_irrefl _ (Nat.lt_of_lt_of_le hAB hle)
    refine ⟨i, j, hij, hiA, hjB, ?_⟩
    have := foldl_take_factor (fun s d => d.pass s) (executionOrder systems)
      st (i : Nat) (j : Nat) i.isLt hij
    rw [stateBefore, stateBefore, this, hiA]
  · rfl

/-- Witness for C3: a pipeline over a `Nat` store whose layout pass adds one
(priority 0) and whose render pass doubles (priority 1); layout's write is
visible to render, and the concrete two-system run is
`render (layout 3) = 8`. -/
theorem pipeline_priority_visibility_witness :
    (∃ i j : Fin (executionOrder
        (widgetManagerSystems (fun n => n + 1) (fun n => n * 2))).length,
      (i : Nat) < (j : Nat) ∧
      (executionOrder
        (widgetManagerSystems (fun n : Nat => n + 1) (fun n => n * 2))).get i =
          ⟨0, fun n => n + 1⟩ ∧
      (executionOrder
        (widgetManagerSystems (fun n : Nat => n + 1) (fun n => n * 2))).get j =
          ⟨1, fun n => n * 2⟩ ∧
      stateBefore (widgetManagerSystems (fun n => n + 1) (fun n => n * 2))
          3 j =
        (((executionOrder
            (widgetManagerSystems (fun n => n + 1) (fun n => n * 2))).drop
              ((i : Nat) + 1)).take ((j : Nat) - (i : Nat) - 1)).foldl
          (fun s d => d.pass s)
          ((⟨0, fun n => n + 1⟩ : SystemDescriptor Nat).pass
            (stateBefore
              (widgetManagerSystems (fun n => n + 1) (fun n => n * 2)) 3 i))) ∧
    runPipeline (widgetManagerSystems (fun n : Nat => n + 1)
      (fun n => n * 2)) 3 = (fun n => n * 2) ((fun n : Nat => n + 1) 3) := by
  exact pipeline_priority_visibility
    (widgetManagerSystems (fun n => n + 1) (fun n => n * 2)) 3
    ⟨0, fun n => n + 1⟩ ⟨1, fun n => n * 2⟩
    (List.mem_cons_self _ _) (List.mem_cons_of_mem _ (List.mem_cons_self _ _))
    Nat.zero_lt_one (fun n => n + 1) (fun n => n * 2)

/-!
Layout pass (§4.4 of the spec).  `WidgetManager::new` registers a
`LayoutSystem` at priority 0; the system's driver is not part of the source
tree, so the two-phase negotiation protocol is modelled from the spec.
-/

/-- The geometry written by the layout pass: entity to resolved
`(width, height)`, an association map with overwriting insertion (one slot
per entity, as the entity's geometry component). -/
abbrev SizeMap := List (Nat × (Nat × Nat))

/-- Insertion into a `SizeMap` with one-slot-per-entity semantics: any
previous binding of the same entity is replaced. -/
def sizeInsert (m : SizeMap) (e : Nat) (v : Nat × Nat) : SizeMap :=
  (e, v) :: m.filter (fun p => p.1 != e)

/-- The keys of a size map are pairwise distinct. -/
def keysNodup (m : SizeMap) : Prop := (m.map Prod.fst).Nodup

/-- Errors of the layout pass: `LayoutCycle` when the negotiation revisits
an in-progress entity, `UnknownEntity` when a request names an entity that
is not registered. -/
inductive LayoutError where
  | LayoutCycle
  | UnknownEntity
deriving DecidableEq, Repr

/-- A per-entity layout function, following the spec's layout function
contract `(entity, componentStore, constraints, children, childPositionsOut,
forcedSize?) -> LayoutResult`; the read-only component store and theme are
dropped, the mutable position map is threaded through the result. -/
abbrev LayoutFn := Nat → BoxConstraints → List Nat → PosMap →
  Option (Nat × Nat) → LayoutResult × PosMap

/-- The inputs of one layout run: the per-entity layout functions, the
tree's child lists, and the finite set of registered entities. -/
structure LayoutConfig where
  lf : LayoutFn
  childrenOf : Nat → List Nat
  all : Finset Nat

/-- An `Option`-wrapped outcome: `none` is exhausted fuel (used only to
state and prove the termination bound), otherwise the resolved size with
the final size and position maps, or a layout error. -/
abbrev LayoutOutcome := Option (Except LayoutError ((Nat × Nat) × SizeMap × PosMap))

mutual
/-- Modelled from the spec: the recursive resolution step of the Layout
Pass (§4.4), absent from the source tree.  Resolving an entity that is
already in the in-progress (visited) set fails with `LayoutCycle`;
resolving an unregistered entity fails with `UnknownEntity`; otherwise the
entity is marked in-progress and its layout function is negotiated with,
starting with no forced size. -/
def resolveEntity (cfg : LayoutConfig) (fuel : Nat) (e : Nat)
    (bc : BoxConstraints) (visited : Finset Nat) (sizes : SizeMap)
    (pos : PosMap) : LayoutOutcome :=
  match fuel with
  | 0 => none
  | fuel + 1 =>
    if e ∈ visited then some (Except.error LayoutError.LayoutCycle)
    else if e ∈ cfg.all then
      negotiate cfg fuel e bc (insert e visited) ∅ none sizes pos
    else some (Except.error LayoutError.UnknownEntity)

/-- Modelled from the spec: one negotiation round with an entity's layout
function (§4.4).  `Size (w, h)` is the final answer and is recorded as the
entity's geometry; `RequestChild (c, cbc)` defers: the child is resolved
recursively under the same in-progress set, its answer is fed back as the
forced size of a re-invocation, and — since the spec allows "up to one
re-ask per distinct child" — a repeated request for the same child within
one negotiation is detected as a cycle. -/
def negotiate (cfg : LayoutConfig) (fuel : Nat) (e : Nat)
    (bc : BoxConstraints) (visited : Finset Nat)
    (requested : Finset Nat) (forced : Option (Nat × Nat))
    (sizes : SizeMap) (pos : PosMap) : LayoutOutcome :=
  match fuel with
  | 0 => none
  | fuel + 1 =>
    match cfg.lf e bc (cfg.childrenOf e) pos forced with
    | (LayoutResult.Size s, pos') =>
      some (Except.ok (s, sizeInsert sizes e s, pos'))
    | (LayoutResult.RequestChild c cbc, pos') =>
      if c ∈ requested then some (Except.error LayoutError.LayoutCycle)
      else
        match resolveEntity cfg fuel c cbc visited sizes pos' with
        | none => none
        | some (Except.error err) => some (Except.error err)
        | some (Except.ok (cs, sizes', pos'')) =>
          negotiate cfg fuel e bc visited (insert c requested) (some cs)
            sizes' pos''
end

/-- Measure of a `resolveEntity` call: entities not yet in progress, scaled
past any possible request count. -/
def measureR (cfg : LayoutConfig) (visited : Finset Nat) : Nat :=
  (cfg.all \ visited).card * (cfg.all.card + 2)

/-- Measure of a `negotiate` call: the `resolveEntity` measure plus the
registered entities not yet requested in this round. -/
def measureN (cfg : LayoutConfig) (visited requested : Finset Nat) : Nat :=
  measureR cfg visited + (cfg.all \ requested).card + 1

/-- Fuel that provably suffices for a whole run from an empty in-progress
set. -/
def layoutFuel (cfg : LayoutConfig) : Nat :=
  cfg.all.card * (cfg.all.card + 2) + 1

/-- Modelled from the spec: one Layout Pass run, resolving the root entity
under the frame's constraints with empty in-progress set, geometry map and
position map. -/
def layoutPass (cfg : LayoutConfig) (root : Nat) (bc : BoxConstraints) :
    LayoutOutcome :=
  resolveEntity cfg (layoutFuel cfg) root bc ∅ [] []

theorem measureR_lt_measureN (cfg : LayoutConfig)
    (visited requested : Finset Nat) :
    measureR cfg visited < measureN cfg visited requested := by
  unfold measureN
  omega

theorem measureN_insert_lt (cfg : LayoutConfig)
    (visited requested : Finset Nat) {c : Nat} (hc : c ∈ cfg.all)
    (hcr : c ∉ requested) :
    measureN cfg visited (insert c requested) <
      measureN cfg visited requested := by
  unfold measureN
  have hlt : (cfg.all \ insert c requested).card <
      (cfg.all \ requested).card := by
    rw [Finset.sdiff_insert]
    exact Finset.card_erase_lt_of_mem (Finset.mem_sdiff.mpr ⟨hc, hcr⟩)
  omega

theorem measureN_entry_lt (cfg : LayoutConfig) (visited : Finset Nat)
    {e : Nat} (he : e ∈ cfg.all) (hv : e ∉ visited) :
    measureN cfg (insert e visited) ∅ < measureR cfg visited := by
  unfold measureN measureR
  rw [Finset.sdiff_empty]
  have hmem : e ∈ cfg.all \ visited := Finset.mem_sdiff.mpr ⟨he, hv⟩
  have hcard : (cfg.all \ insert e visited).card =
      (cfg.all \ visited).card - 1 := by
    rw [Finset.sdiff_insert]
    exact Finset.card_erase_of_mem hmem
  have hpos : 0 < (cfg.all \ visited).card := Finset.card_pos.mpr ⟨e, hmem⟩
  obtain ⟨d, hd⟩ : ∃ d, (cfg.all \ visited).card = d + 1 :=
    ⟨(cfg.all \ visited).card - 1, by omega⟩
  rw [hcard, hd]
  have h1 : d + 1 - 1 = d := by omega
  rw [h1, Nat.succ_mul]
  set p := d * (cfg.all.card + 2)
  omega

theorem resolveEntity_succ_mem (cfg : LayoutConfig) (f : Nat) (e : Nat)
    (bc : BoxConstraints) (visited : Finset Nat) (sizes : SizeMap)
    (pos : PosMap) (hv : e ∈ visited) :
    resolveEntity cfg (f + 1) e bc visited sizes pos =
      some (Except.error LayoutError.LayoutCycle) := by
  simp [resolveEntity, hv]

theorem resolveEntity_succ_unknown (cfg : LayoutConfig) (f : Nat) (e : Nat)
    (bc : BoxConstraints) (visited : Finset Nat) (sizes : SizeMap)
    (pos : PosMap) (hv : e ∉ visited) (ha : e ∉ cfg.all) :
    resolveEntity cfg (f + 1) e bc visited sizes pos =
      some (Except.error LayoutError.UnknownEntity) := by
  simp [resolveEntity, hv, ha]

theorem resolveEntity_succ_step (cfg : LayoutConfig) (f : Nat) (e : Nat)
    (bc : BoxConstraints) (visited : Finset Nat) (sizes : SizeMap)
    (pos : PosMap) (hv : e ∉ visited) (ha : e ∈ cfg.all) :
    resolveEntity cfg (f + 1) e bc visited sizes pos =
      negotiate cfg f e bc (insert e visited) ∅ none sizes pos := by
  simp [resolveEntity, hv, ha]

theorem negotiate_succ_size (cfg : LayoutConfig) (f : Nat) (e : Nat)
    (bc : BoxConstraints) (visited requested : Finset Nat)
    (forced : Option (Nat × Nat)) (sizes : SizeMap) (pos : PosMap)
    (s : Nat × Nat) (pos' : PosMap)
    (hlf : cfg.lf e bc (cfg.childrenOf e) pos forced =
      (LayoutResult.Size s, pos')) :
    negotiate cfg (f + 1) e bc visited requested forced sizes pos =
      some (Except.ok (s, sizeInsert sizes e s, pos')) := by
  simp [negotiate, hlf]

theorem negotiate_succ_repeat (cfg : LayoutConfig) (f : Nat) (e : Nat)
    (bc : BoxConstraints) (visited requested : Finset Nat)
    (forced : Option (Nat × Nat)) (sizes : SizeMap) (pos : PosMap)
    (c : Nat) (cbc : BoxConstraints) (pos' : PosMap)
    (hlf : cfg.lf e bc (cfg.childrenOf e) pos forced =
      (LayoutResult.RequestChild c cbc, pos'))
    (hcr : c ∈ requested) :
    negotiate cfg (f + 1) e bc visited requested forced sizes pos =
      some (Except.error LayoutError.LayoutCycle) := by
  simp [negotiate, hlf, hcr]

theorem negotiate_succ_request (cfg : LayoutConfig) (f : Nat) (e : Nat)
    (bc : BoxConstraints) (visited requested : Finset Nat)
    (forced : Option (Nat × Nat)) (sizes : SizeMap) (pos : PosMap)
    (c : Nat) (cbc : BoxConstraints) (pos' : PosMap)
    (hlf : cfg.lf e bc (cfg.childrenOf e) pos forced =
      (LayoutResult.RequestChild c cbc, pos'))
    (hcr : c ∉ requested) :
    negotiate cfg (f + 1) e bc visited requested forced sizes pos =
      match resolveEntity cfg f c cbc visited sizes pos' with
      | none => none
      | some (Except.error err) => some (Except.error err)
      | some (Except.ok (cs, sizes', pos'')) =>
        negotiate cfg f e bc visited (insert c requested) (some cs)
          sizes' pos'' := by
  simp [negotiate, hlf, hcr]

/-- A successful resolution implies the entity was registered. -/
theorem resolve_ok_mem (cfg : LayoutConfig) (fuel : Nat) (e : Nat)
    (bc : BoxConstraints) (visited : Finset Nat) (sizes : SizeMap)
    (pos : PosMap) {v : (Nat × Nat) × SizeMap × PosMap}
    (h : resolveEntity cfg fuel e bc visited sizes pos =
      some (Except.ok v)) : e ∈ cfg.all := by
  cases fuel with
  | zero => simp [resolveEntity] at h
  | succ f =>
    by_cases hv : e ∈ visited
    · rw [resolveEntity_succ_mem cfg f e bc visited sizes pos hv] at h
      simp at h
    · by_cases ha : e ∈ cfg.all
      · exact ha
      · rw [resolveEntity_succ_unknown cfg f e bc visited sizes pos hv ha] at h
        simp at h

/-- The spec's termination bound: with fuel exceeding the call measure,
neither function runs out of fuel. -/
theorem layout_fuel_sufficient (cfg : LayoutConfig) : ∀ fuel : Nat,
    (∀ e bc visited sizes pos, measureR cfg visited < fuel →
      resolveEntity cfg fuel e bc visited sizes pos ≠ none) ∧
    (∀ e bc visited requested forced sizes pos,
      measureN cfg visited requested < fuel →
      negotiate cfg fuel e bc visited requested forced sizes pos ≠ none) := by
  intro fuel
  induction fuel with
  | zero =>
    exact ⟨fun _ _ _ _ _ h => absurd h (Nat.not_lt_zero _),
      fun _ _ _ _ _ _ _ h => absurd h (Nat.not_lt_zero _)⟩
  | succ f ih =>
    constructor
    · intro e bc visited sizes pos hm
      by_cases hv : e ∈ visited
      · rw [resolveEntity_succ_mem cfg f e bc visited sizes pos hv]
        simp
      · by_cases ha : e ∈ cfg.all
        · rw [resolveEntity_succ_step cfg f e bc visited sizes pos hv ha]
          apply ih.2
          have h2 := measureN_entry_lt cfg visited ha hv
          omega
        · rw [resolveEntity_succ_unknown cfg f e bc visited sizes pos hv ha]
          simp
    · intro e bc visited requested forced sizes pos hm
      rcases hlf : cfg.lf e bc (cfg.childrenOf e) pos forced with ⟨r, pos'⟩
      cases r with
      | Size s =>
        rw [negotiate_succ_size cfg f e bc visited requested forced sizes pos
          s pos' hlf]
        simp
      | RequestChild c cbc =>
        by_cases hcr : c ∈ requested
        · rw [negotiate_succ_repeat cfg f e bc visited requested forced sizes
            pos c cbc pos' hlf hcr]
          simp
        · rw [negotiate_succ_request cfg f e bc visited requested forced sizes
            pos c cbc pos' hlf hcr]
          have hr : resolveEntity cfg f c cbc visited sizes pos' ≠ none := by
            apply ih.1
            have h2 := measureR_lt_measureN cfg visited requested
            omega
          cases hres : resolveEntity cfg f c cbc visited sizes pos' with
          | none => exact absurd hres hr
          | some exc =>
            cases exc with
            | error err => simp
            | ok v =>
              rcases v with ⟨cs, sizes', pos''⟩
              show negotiate cfg f e bc visited (insert c requested)
                (some cs) sizes' pos'' ≠ none
              apply ih.2
              have hcall : c ∈ cfg.all :=
                resolve_ok_mem cfg f c cbc visited sizes pos' hres
              have h2 := measureN_insert_lt cfg visited requested hcall hcr
              omega

/-- Inserting into a size map keeps its keys pairwise distinct. -/
theorem sizeInsert_keysNodup (m : SizeMap) (e : Nat) (v : Nat × Nat)
    (h : keysNodup m) : keysNodup (sizeInsert m e v) := by
  unfold keysNodup sizeInsert
  rw [List.map_cons, List.nodup_cons]
  constructor
  · intro hmem
    obtain ⟨x, hx, hfst⟩ := List.mem_map.mp hmem
    have hne := (List.mem_filter.mp hx).2
    rw [hfst] at hne
    simp at hne
  · exact List.Nodup.sublist (List.Sublist.map _ (List.filter_sublist m)) h

/-- An entity just inserted into a size map is looked up with its new
size. -/
theorem sizeInsert_lookup (m : SizeMap) (e : Nat) (v : Nat × Nat) :
    (sizeInsert m e v).lookup e = some v := by
  unfold sizeInsert
  simp [List.lookup]

/-- A successful run keeps the geometry map's keys pairwise distinct — each
entity holds exactly one final size — and records the resolved entity's
size under its key. -/
theorem layout_sizes_unique (cfg : LayoutConfig) : ∀ fuel : Nat,
    (∀ e bc visited sizes pos s sizes' pos',
      resolveEntity cfg fuel e bc visited sizes pos =
        some (Except.ok (s, sizes', pos')) →
      keysNodup sizes → keysNodup sizes' ∧ sizes'.lookup e = some s) ∧
    (∀ e bc visited requested forced sizes pos s sizes' pos',
      negotiate cfg fuel e bc visited requested forced sizes pos =
        some (Except.ok (s, sizes', pos')) →
      keysNodup sizes → keysNodup sizes' ∧ sizes'.lookup e = some s) := by
  intro fuel
  induction fuel with
  | zero =>
    constructor
    · intro e bc visited sizes pos s sizes' pos' h
      simp [resolveEntity] at h
    · intro e bc visited requested forced sizes pos s sizes' pos' h
      simp [negotiate] at h
  | succ f ih =>
    constructor
    · intro e bc visited sizes pos s sizes' pos' h hnd
      by_cases hv : e ∈ visited
      · rw [resolveEntity_succ_mem cfg f e bc visited sizes pos hv] at h
        simp at h
      · by_cases ha : e ∈ cfg.all
        · rw [resolveEntity_succ_step cfg f e bc visited sizes pos hv ha] at h
          exact ih.2 e bc (insert e visited) ∅ none sizes pos s sizes' pos'
            h hnd
        · rw [resolveEntity_succ_unknown cfg f e bc visited sizes pos hv ha]
            at h
          simp at h
    · intro e bc visited requested forced sizes pos s sizes' pos' h hnd
      rcases hlf : cfg.lf e bc (cfg.childrenOf e) pos forced with ⟨r, posr⟩
      cases r with
      | Size s0 =>
        rw [negotiate_succ_size cfg f e bc visited requested forced sizes pos
          s0 posr hlf] at h
        have h1 : s0 = s ∧ sizeInsert sizes e s0 = sizes' ∧ posr = pos' := by
          simpa using h
        obtain ⟨rfl, rfl, rfl⟩ := h1
        exact ⟨sizeInsert_keysNodup sizes e s0 hnd,
          sizeInsert_lookup sizes e s0⟩
      | RequestChild c cbc =>
        by_cases hcr : c ∈ requested
        · rw [negotiate_succ_repeat cfg f e bc visited requested forced sizes
            pos c cbc posr hlf hcr] at h
          simp at h
        · rw [negotiate_succ_request cfg f e bc visited requested forced sizes
            pos c cbc posr hlf hcr] at h
          cases hres : resolveEntity cfg f c cbc visited sizes posr with
          | none => rw [hres] at h; simp at h
          | some exc =>
            cases exc with
            | error err => rw [hres] at h; simp at h
            | ok v =>
              rcases v with ⟨cs, sizes1, pos1⟩
              rw [hres] at h
              have hnd1 : keysNodup sizes1 :=
                (ih.1 c cbc visited sizes posr cs sizes1 pos1 hres hnd).1
              exact ih.2 e bc visited (insert c requested) (some cs) sizes1
                pos1 s sizes' pos' h hnd1

/-- A two-entity configuration whose layout function answers with the
minimum size immediately, never requesting its child. -/
def immediateSizeConfig : LayoutConfig where
  lf := fun _ bc _ pos _ =>
    (LayoutResult.Size (bc.min_width, bc.min_height), pos)
  childrenOf := fun _ => [1]
  all := {0, 1}

/-- Counterexample to claim C2 as stated: the Layout Pass does not assign a
final size to *every* entity per run.  On `immediateSizeConfig` — two
registered entities, entity 1 the child of the root 0, the root's layout
function answering immediately without requesting its child — the run
succeeds, yet the resulting geometry map holds a size only for entity 0:
entity 1, registered and a declared child, is assigned none. -/
theorem layout_pass_not_every_entity_sized :
    (1 : Nat) ∈ immediateSizeConfig.all ∧
    (1 : Nat) ∈ immediateSizeConfig.childrenOf 0 ∧
    layoutPass immediateSizeConfig 0 ⟨0, 200, 0, 50⟩ =
      some (Except.ok ((0, 0), [(0, (0, 0))], [])) ∧
    ([((0 : Nat), ((0 : Nat), (0 : Nat)))] : SizeMap).lookup 1 = none := by
  refine ⟨by decide, by decide, rfl, rfl⟩

/-- Claim C2, amended: for every configuration of layout functions and
child lists over a finite entity set, the Layout Pass terminates (the
explicit fuel `layoutFuel` provably never runs out); every resolution step
keeps at most one final size per entity (the geometry map's keys stay
pairwise distinct) and records the size of the entity it resolves — in
particular a successful run records the root's size — though entities whose
layout is never requested receive none; and whenever any entity's layout
function requests an entity of the active request chain (its own entity
directly, or an in-progress ancestor), that entity's negotiation fails with
`LayoutCycle` instead of recursing unboundedly — in particular a root whose
layout function requests itself makes the whole pass fail with
`LayoutCycle`. -/
theorem layout_pass_terminates_and_detects_cycles (cfg : LayoutConfig)
    (root : Nat) (bc : BoxConstraints) (hroot : root ∈ cfg.all) :
    layoutPass cfg root bc ≠ none ∧
    (∀ fuel e bc' visited sizes pos s sizes' pos',
      resolveEntity cfg fuel e bc' visited sizes pos =
        some (Except.ok (s, sizes', pos')) →
      keysNodup sizes → keysNodup sizes' ∧ sizes'.lookup e = some s) ∧
    (∀ s sizes pos, layoutPass cfg root bc =
        some (Except.ok (s, sizes, pos)) →
      keysNodup sizes ∧ sizes.lookup root = some s) ∧
    (∀ fuel e bc' visited requested forced sizes pos c cbc pos',
      2 ≤ fuel →
      cfg.lf e bc' (cfg.childrenOf e) pos forced =
        (LayoutResult.RequestChild c cbc, pos') →
      c ∈ visited →
      negotiate cfg fuel e bc' visited requested forced sizes pos =
        some (Except.error LayoutError.LayoutCycle)) ∧
    (∀ cbc pos', cfg.lf root bc (cfg.childrenOf root) [] none =
        (LayoutResult.RequestChild root cbc, pos') →
      layoutPass cfg root bc =
        some (Except.error LayoutError.LayoutCycle)) := by
  refine ⟨?_, ?_, ?_, ?_, ?_⟩
  · unfold layoutPass
    apply (layout_fuel_sufficient cfg (layoutFuel cfg)).1
    unfold measureR layoutFuel
    rw [Finset.sdiff_empty]
    omega
  · intro fuel e bc' visited sizes pos s sizes' pos' h hnd
    exact (layout_sizes_unique cfg fuel).1 e bc' visited sizes pos s
      sizes' pos' h hnd
  · intro s sizes pos h
    have hnd : keysNodup ([] : SizeMap) := List.nodup_nil
    exact (layout_sizes_unique cfg (layoutFuel cfg)).1 root bc ∅ [] [] s
      sizes pos h hnd
  · intro fuel e bc' visited requested forced sizes pos c cbc pos' hfuel
      hlf hcv
    obtain ⟨f, rfl⟩ : ∃ f, fuel = f + 2 := ⟨fuel - 2, by omega⟩
    by_cases hcr : c ∈ requested
    · exact negotiate_succ_repeat cfg (f + 1) e bc' visited requested forced
        sizes pos c cbc pos' hlf hcr
    · rw [negotiate_succ_request cfg (f + 1) e bc' visited requested forced
        sizes pos c cbc pos' hlf hcr]
      rw [resolveEntity_succ_mem cfg f c cbc visited sizes pos' hcv]
  · intro cbc pos' hlf
    have hN : 1 ≤ cfg.all.card := Finset.card_pos.mpr ⟨root, hroot⟩
    obtain ⟨m, hm⟩ : ∃ m, layoutFuel cfg = m + 3 := by
      refine ⟨cfg.all.card * (cfg.all.card + 2) - 2, ?_⟩
      unfold layoutFuel
      have h3 : 3 ≤ cfg.all.card * (cfg.all.card + 2) := by
        calc 3 = 1 * 3 := by omega
          _ ≤ cfg.all.card * (cfg.all.card + 2) :=
            Nat.mul_le_mul hN (by omega)
      omega
    unfold layoutPass
    rw [hm]
    rw [resolveEntity_succ_step cfg (m + 2) root bc ∅ [] []
      (Finset.not_mem_empty root) hroot]
    rw [negotiate_succ_request cfg (m + 1) root bc (insert root ∅) ∅ none
      [] [] root cbc pos' hlf (Finset.not_mem_empty root)]
    rw [resolveEntity_succ_mem cfg m root cbc (insert root ∅) [] pos'
      (Finset.mem_insert_self root ∅)]

/-- A configuration whose only layout function always requests its own
entity. -/
def selfRequestConfig : LayoutConfig where
  lf := fun _ bc _ pos _ => (LayoutResult.RequestChild 0 bc, pos)
  childrenOf := fun _ => [0]
  all := {0}

/-- Witness for C2 (amended): on the concrete single-entity configuration
whose layout function requests its own entity, the whole pass fails with
`LayoutCycle`, and the negotiation step for that entity fails with
`LayoutCycle` as soon as the in-progress chain contains it. -/
theorem layout_pass_detects_cycles_witness :
    layoutPass selfRequestConfig 0 ⟨0, 200, 0, 50⟩ =
      some (Except.error LayoutError.LayoutCycle) ∧
    negotiate selfRequestConfig 2 0 ⟨0, 200, 0, 50⟩ {0} ∅ none [] [] =
      some (Except.error LayoutError.LayoutCycle) :=
  ⟨(layout_pass_terminates_and_detects_cycles selfRequestConfig 0
      ⟨0, 200, 0, 50⟩ (by decide)).2.2.2.2 ⟨0, 200, 0, 50⟩ [] rfl,
    (layout_pass_terminates_and_detects_cycles selfRequestConfig 0
      ⟨0, 200, 0, 50⟩ (by decide)).2.2.2.1 2 0 ⟨0, 200, 0, 50⟩ {0} ∅ none
      [] [] 0 ⟨0, 200, 0, 50⟩ [] (Nat.le_refl 2) rfl
      (Finset.mem_insert_self 0 ∅)⟩

/-!
Tree builder (`WidgetManager::root` in `widget_manager.rs`) and the render
pass's filter and sort closures (`WidgetManager::new`).  The `Tree`
structure itself comes from a dependency, so its operations are modelled
from §4.2 of the spec.
-/

/-- Components attached to entities.  `rect` is the default
`Rect::new(10, 10, 200, 50)`, `layout` marks the default `Layout` closure
(its behaviour is `default_layout`), `entityId` is the creation-order id
`EntityId(entity_counter)`, `drawable` is the render marker, and `other`
stands for any further widget-declared boxed property. -/
inductive Component where
  | rect (x y : Int) (w h : Nat)
  | layout
  | entityId (n : Nat)
  | drawable
  | other (n : Nat)
deriving DecidableEq, Repr

/-- Structural tree errors from §4.2 of the spec. -/
inductive TreeError where
  | AlreadyParented
  | UnknownEntity
deriving DecidableEq, Repr

/-- Modelled from the spec: the `Tree` dependency (§4.2), absent from the
source tree.  `registered` lists the known nodes in registration order;
`parents` records `(child, parent)` pairs in append order, which also
determines each parent's ordered child list. -/
structure Tree where
  registered : List Nat
  parents : List (Nat × Nat)
deriving DecidableEq, Repr

/-- The empty tree. -/
def Tree.empty : Tree := ⟨[], []⟩

/-- Modelled from the spec: `registerNode(entity)` inserts a new,
parentless node; registering an already-registered entity is a no-op. -/
def Tree.register_node (t : Tree) (e : Nat) : Tree :=
  if e ∈ t.registered then t else { t with registered := t.registered ++ [e] }

/-- The parent of a node, when it has one. -/
def Tree.parentOf (t : Tree) (c : Nat) : Option Nat :=
  t.parents.lookup c

/-- The ordered child list of a node: the children appended to it, in
append order. -/
def Tree.children (t : Tree) (p : Nat) : List Nat :=
  (t.parents.filter (fun pr => pr.2 == p)).map Prod.fst

/-- Modelled from the spec: `appendChild(parent, child)` sets child's
parent and appends it to parent's children; it "fails with
`TreeError::AlreadyParented` if child already has a parent, and
`TreeError::UnknownEntity` if either endpoint is unregistered". -/
def Tree.append_child (t : Tree) (p c : Nat) : Except TreeError Tree :=
  if p ∈ t.registered ∧ c ∈ t.registered then
    if (t.parentOf c).isSome then Except.error TreeError.AlreadyParented
    else Except.ok { t with parents := t.parents ++ [(c, p)] }
  else Except.error TreeError.UnknownEntity

/-- Mirror of `let _result = tree.borrow_mut().append_child(entity, child);`
in `widget_manager.rs`: the returned `Result` is dropped — on error the
tree is left as it was and expansion continues. -/
def discardAppendError (r : Except TreeError Tree) (t : Tree) : Tree :=
  match r with
  | Except.ok t' => t'
  | Except.error _ => t

mutual
/-- A widget: its declared properties and its template.  (The source's
`Arc<Widget>` trait objects expose exactly `properties()` and
`template()`.) -/
inductive Widget where
  | mk (properties : List Component) (template : Template)

/-- The template's child shape (`Template` enum): `Single(child)`,
`Mutli(children)` (sic — the source's spelling), and every other variant
(matched by `_ => {}` in the source) collapsed into the childless `Leaf`. -/
inductive Template where
  | Leaf : Template
  | Single (child : Widget) : Template
  | Mutli (children : WidgetList) : Template

/-- The `Vec<Arc<Widget>>` of a `Mutli` template, as an explicit list so
that the whole family is a plain mutual inductive. -/
inductive WidgetList where
  | nil : WidgetList
  | cons (head : Widget) (tail : WidgetList) : WidgetList
end

/-- The manager's build state threaded through `expand`: the world's entity
allocator (`world.create_entity()` hands out fresh ascending ids), the
manager's `entity_counter` feeding `EntityId` components, the shared tree,
and the per-entity component attachments made so far. -/
structure BuildState where
  world_counter : Nat
  entity_counter : Nat
  tree : Tree
  comps : List (Nat × List Component)
deriving DecidableEq, Repr

mutual
/-- Mirror of the recursive `expand` function inside `WidgetManager::root`
(`widget_manager.rs`, lines 66-129): create an entity carrying the default
`Rect`, the default `Layout`, `EntityId(entity_counter)` and the widget's
properties; increment the counter; register the node; then expand the
template — `Single(child)`: expand and append the child; `Mutli(children)`:
expand and append each in order; anything else: nothing.  Each
`append_child` result is discarded (`let _result = ...`).  The unused
`parent` argument is kept as in the source. -/
def expand (st : BuildState) (w : Widget) (parent : Nat) :
    Nat × BuildState :=
  match w with
  | Widget.mk props tmpl =>
    let entity := st.world_counter
    let st1 : BuildState :=
      { world_counter := st.world_counter + 1
        entity_counter := st.entity_counter + 1
        tree := st.tree.register_node entity
        comps := st.comps ++ [(entity,
          [Component.rect 10 10 200 50, Component.layout,
            Component.entityId st.entity_counter] ++ props)] }
    match tmpl with
    | Template.Leaf => (entity, st1)
    | Template.Single child =>
      let r := expand st1 child parent
      let st2 : BuildState := { r.2 with
        tree := discardAppendError (r.2.tree.append_child entity r.1)
          r.2.tree }
      (entity, st2)
    | Template.Mutli children => (entity, expandAll st1 children parent entity)

/-- The `for child in children` loop of the `Mutli` arm: expand each child
and append it under `entity`, discarding each `append_child` result. -/
def expandAll (st : BuildState) (ws : WidgetList) (parent entity : Nat) :
    BuildState :=
  match ws with
  | WidgetList.nil => st
  | WidgetList.cons child rest =>
    let r := expand st child parent
    let st2 : BuildState := { r.2 with
      tree := discardAppendError (r.2.tree.append_child entity r.1) r.2.tree }
    expandAll st2 rest parent entity
end

/-- The initial build state of a fresh `WidgetManager` (`Default`: empty
world, counter 0, empty tree). -/
def initialBuildState : BuildState := ⟨0, 0, Tree.empty, []⟩

/-- Mirror of `WidgetManager::root`: expand the root widget with parent
argument `0` on the manager's fresh state. -/
def rootExpand (w : Widget) : Nat × BuildState :=
  expand initialBuildState w 0

mutual
/-- Number of template nodes of a widget. -/
def countW : Widget → Nat
  | Widget.mk _ t => 1 + countT t

/-- Number of template nodes below a template shape. -/
def countT : Template → Nat
  | Template.Leaf => 0
  | Template.Single c => countW c
  | Template.Mutli cs => countL cs

/-- Number of template nodes of a widget list. -/
def countL : WidgetList → Nat
  | WidgetList.nil => 0
  | WidgetList.cons c r => countW c + countL r
end

mutual
/-- The `(child, parent)` pairs appended while expanding `w` whose root
entity is `n`, in append order. -/
def edgesW : Widget → Nat → List (Nat × Nat)
  | Widget.mk _ t, n => edgesT t n

/-- Edges appended while expanding the template of the node at `n`. -/
def edgesT : Template → Nat → List (Nat × Nat)
  | Template.Leaf, _ => []
  | Template.Single c, n => edgesW c (n + 1) ++ [(n + 1, n)]
  | Template.Mutli cs, n => edgesL cs (n + 1) n

/-- Edges appended while expanding a child list whose first root entity is
`m`, all joined to the parent entity `p`. -/
def edgesL : WidgetList → Nat → Nat → List (Nat × Nat)
  | WidgetList.nil, _, _ => []
  | WidgetList.cons c r, m, p =>
    (edgesW c m ++ [(m, p)]) ++ edgesL r (m + countW c) p
end

mutual
/-- The component attachments made while expanding `w` at root entity `n`
with entity counter `ec`, in creation order. -/
def compsW : Widget → Nat → Nat → List (Nat × List Component)
  | Widget.mk props t, n, ec =>
    (n, [Component.rect 10 10 200 50, Component.layout,
      Component.entityId ec] ++ props) :: compsT t (n + 1) (ec + 1)

/-- Component attachments below a template shape. -/
def compsT : Template → Nat → Nat → List (Nat × List Component)
  | Template.Leaf, _, _ => []
  | Template.Single c, n, ec => compsW c n ec
  | Template.Mutli cs, n, ec => compsL cs n ec

/-- Component attachments of a child list. -/
def compsL : WidgetList → Nat → Nat → List (Nat × List Component)
  | WidgetList.nil, _, _ => []
  | WidgetList.cons c r, n, ec =>
    compsW c n ec ++ compsL r (n + countW c) (ec + countW c)
end

mutual
/-- Every template node of `w` (expanded at root entity `n`), paired with
the entity created for it. -/
def subnodesW : Widget → Nat → List (Nat × Widget)
  | Widget.mk props t, n =>
    (n, Widget.mk props t) :: subnodesT t (n + 1)

/-- Template nodes below a template shape. -/
def subnodesT : Template → Nat → List (Nat × Widget)
  | Template.Leaf, _ => []
  | Template.Single c, n => subnodesW c n
  | Template.Mutli cs, n => subnodesL cs n

/-- Template nodes of a child list. -/
def subnodesL : WidgetList → Nat → List (Nat × Widget)
  | WidgetList.nil, _ => []
  | WidgetList.cons c r, n => subnodesW c n ++ subnodesL r (n + countW c)
end

/-- Root entities of the successive children of a `Mutli` list whose first
child's root entity is `m`. -/
def rootsL : WidgetList → Nat → List Nat
  | WidgetList.nil, _ => []
  | WidgetList.cons c r, m => m :: rootsL r (m + countW c)

/-- The root entities of the expanded template children of the node
expanded at entity `n` — what the spec declares as that node's ordered
child list. -/
def declaredChildRoots : Widget → Nat → List Nat
  | Widget.mk _ Template.Leaf, _ => []
  | Widget.mk _ (Template.Single _), n => [n + 1]
  | Widget.mk _ (Template.Mutli cs), n => rootsL cs (n + 1)

theorem mem_range1 {s n m : Nat} : m ∈ List.range' s n ↔ s ≤ m ∧ m < s + n := by
  rw [List.mem_range']
  constructor
  · rintro ⟨i, hi, rfl⟩
    omega
  · intro h
    exact ⟨m - s, by omega, by omega⟩

theorem countW_pos : ∀ w : Widget, 1 ≤ countW w
  | Widget.mk _ t => by
    unfold countW
    omega

mutual
theorem edgesW_bounds : ∀ (w : Widget) (n : Nat), ∀ pr ∈ edgesW w n,
    n < pr.1 ∧ pr.1 < n + countW w ∧ n ≤ pr.2 ∧ pr.2 < n + countW w
  | Widget.mk props t, n, pr, h => by
    have hb := edgesT_bounds t n pr h
    unfold countW
    omega

theorem edgesT_bounds : ∀ (t : Template) (n : Nat), ∀ pr ∈ edgesT t n,
    n < pr.1 ∧ pr.1 < n + countT t + 1 ∧ n ≤ pr.2 ∧ pr.2 < n + countT t + 1
  | Template.Leaf, n, pr, h => by simp [edgesT] at h
  | Template.Single c, n, pr, h => by
    simp only [edgesT] at h
    rcases List.mem_append.mp h with h1 | h1
    · have hb := edgesW_bounds c (n + 1) pr h1
      simp only [countT]
      omega
    · have hpr : pr = (n + 1, n) := by simpa using h1
      subst hpr
      have hc := countW_pos c
      simp only [countT]
      omega
  | Template.Mutli cs, n, pr, h => by
    simp only [edgesT] at h
    have hb := edgesL_bounds cs (n + 1) n pr h
    simp only [countT]
    omega

theorem edgesL_bounds : ∀ (ws : WidgetList) (m p : Nat), ∀ pr ∈ edgesL ws m p,
    m ≤ pr.1 ∧ pr.1 < m + countL ws ∧
      (pr.2 = p ∨ (m ≤ pr.2 ∧ pr.2 < m + countL ws))
  | WidgetList.nil, m, p, pr, h => by simp [edgesL] at h
  | WidgetList.cons c r, m, p, pr, h => by
    simp only [edgesL] at h
    have hc := countW_pos c
    rcases List.mem_append.mp h with h1 | h1
    · rcases List.mem_append.mp h1 with h2 | h2
      · have hb := edgesW_bounds c m pr h2
        simp only [countL]
        omega
      · have hpr : pr = (m, p) := by simpa using h2
        subst hpr
        dsimp only
        simp only [countL]
        exact ⟨Nat.le_refl m, by omega, Or.inl trivial⟩
    · have hb := edgesL_bounds r (m + countW c) p pr h1
      simp only [countL]
      omega
end

mutual
theorem subnodesW_bounds : ∀ (w : Widget) (n : Nat) (k : Nat) (sub : Widget),
    (k, sub) ∈ subnodesW w n → n ≤ k ∧ k + countW sub ≤ n + countW w
  | Widget.mk props t, n, k, sub, h => by
    simp only [subnodesW] at h
    rcases List.mem_cons.mp h with h1 | h1
    · have h2 : k = n ∧ sub = Widget.mk props t := by
        constructor
        · exact congrArg Prod.fst h1
        · exact congrArg Prod.snd h1
      obtain ⟨rfl, rfl⟩ := h2
      omega
    · have hb := subnodesT_bounds t (n + 1) k sub h1
      have hcw : countW (Widget.mk props t) = 1 + countT t := by
        simp [countW]
      rw [hcw]
      omega

theorem subnodesT_bounds : ∀ (t : Template) (n : Nat) (k : Nat) (sub : Widget),
    (k, sub) ∈ subnodesT t n → n ≤ k ∧ k + countW sub ≤ n + countT t
  | Template.Leaf, n, k, sub, h => by simp [subnodesT] at h
  | Template.Single c, n, k, sub, h => by
    simp only [subnodesT] at h
    have hb := subnodesW_bounds c n k sub h
    simp only [countT]
    omega
  | Template.Mutli cs, n, k, sub, h => by
    simp only [subnodesT] at h
    have hb := subnodesL_bounds cs n k sub h
    simp only [countT]
    omega

theorem subnodesL_bounds : ∀ (ws : WidgetList) (n : Nat) (k : Nat)
    (sub : Widget), (k, sub) ∈ subnodesL ws n →
    n ≤ k ∧ k + countW sub ≤ n + countL ws
  | WidgetList.nil, n, k, sub, h => by simp [subnodesL] at h
  | WidgetList.cons c r, n, k, sub, h => by
    simp only [subnodesL] at h
    rcases List.mem_append.mp h with h1 | h1
    · have hb := subnodesW_bounds c n k sub h1
      simp only [countL]
      omega
    · have hb := subnodesL_bounds r (n + countW c) k sub h1
      simp only [countL]
      omega
end

theorem rootsL_bounds : ∀ (ws : WidgetList) (m : Nat), ∀ c ∈ rootsL ws m,
    m ≤ c ∧ c < m + countL ws
  | WidgetList.nil, m, c, h => by simp [rootsL] at h
  | WidgetList.cons c0 r, m, c, h => by
    simp only [rootsL] at h
    have hc0 := countW_pos c0
    rcases List.mem_cons.mp h with h1 | h1
    · subst h1
      simp only [countL]
      omega
    · have hb := rootsL_bounds r (m + countW c0) c h1
      simp only [countL]
      omega

theorem declaredChildRoots_bounds : ∀ (w : Widget) (k : Nat),
    ∀ c ∈ declaredChildRoots w k, k < c ∧ c < k + countW w
  | Widget.mk props Template.Leaf, k, c, h => by
    simp [declaredChildRoots] at h
  | Widget.mk props (Template.Single ch), k, c, h => by
    have hc : c = k + 1 := by simpa [declaredChildRoots] using h
    subst hc
    have := countW_pos ch
    unfold countW countT
    omega
  | Widget.mk props (Template.Mutli cs), k, c, h => by
    simp only [declaredChildRoots] at h
    have hb := rootsL_bounds cs (k + 1) c h
    unfold countW countT
    omega

theorem lookup_none_keys_lt (l : List (Nat × Nat)) (c : Nat)
    (h : ∀ pr ∈ l, pr.1 < c) : l.lookup c = none := by
  rw [List.lookup_eq_none_iff]
  intro p hp
  have hlt := h p hp
  simp only [bne_iff_ne, ne_eq]
  omega

theorem lookup_none_keys_gt (l : List (Nat × Nat)) (c : Nat)
    (h : ∀ pr ∈ l, c < pr.1) : l.lookup c = none := by
  rw [List.lookup_eq_none_iff]
  intro p hp
  have hlt := h p hp
  simp only [bne_iff_ne, ne_eq]
  omega

/-- The build-state invariant maintained by tree expansion: every
registered node and every recorded parent edge mentions only entities below
the world's next fresh id. -/
def Inv (st : BuildState) : Prop :=
  (∀ e ∈ st.tree.registered, e < st.world_counter) ∧
  (∀ pr ∈ st.tree.parents, pr.1 < st.world_counter ∧ pr.2 < st.world_counter)

/-- The build state after expanding `w` on `st`: both counters advance by
the node count, the nodes `world_counter, ..., world_counter + countW w - 1`
are registered in creation order, the edges `edgesW` are appended, and the
component attachments `compsW` are appended. -/
def expandedState (st : BuildState) (w : Widget) : BuildState where
  world_counter := st.world_counter + countW w
  entity_counter := st.entity_counter + countW w
  tree := Tree.mk
    (st.tree.registered ++ List.range' st.world_counter (countW w))
    (st.tree.parents ++ edgesW w st.world_counter)
  comps := st.comps ++ compsW w st.world_counter st.entity_counter

/-- The build state after expanding a child list under `entity`. -/
def expandedStateL (st : BuildState) (ws : WidgetList) (entity : Nat) :
    BuildState where
  world_counter := st.world_counter + countL ws
  entity_counter := st.entity_counter + countL ws
  tree := Tree.mk
    (st.tree.registered ++ List.range' st.world_counter (countL ws))
    (st.tree.parents ++ edgesL ws st.world_counter entity)
  comps := st.comps ++ compsL ws st.world_counter st.entity_counter

theorem Inv_expandedState (st : BuildState) (w : Widget) (h : Inv st) :
    Inv (expandedState st w) := by
  constructor
  · intro e he
    rcases List.mem_append.mp he with h1 | h1
    · have := h.1 e h1
      simp only [expandedState]
      omega
    · have := mem_range1.mp h1
      simp only [expandedState]
      omega
  · intro pr hpr
    rcases List.mem_append.mp hpr with h1 | h1
    · have := h.2 pr h1
      simp only [expandedState]
      omega
    · have := edgesW_bounds w st.world_counter pr h1
      simp only [expandedState]
      omega

theorem Inv_expandedStateL (st : BuildState) (ws : WidgetList) (entity : Nat)
    (h : Inv st) (hent : entity ∈ st.tree.registered) :
    Inv (expandedStateL st ws entity) := by
  constructor
  · intro e he
    rcases List.mem_append.mp he with h1 | h1
    · have := h.1 e h1
      simp only [expandedStateL]
      omega
    · have := mem_range1.mp h1
      simp only [expandedStateL]
      omega
  · intro pr hpr
    rcases List.mem_append.mp hpr with h1 | h1
    · have := h.2 pr h1
      simp only [expandedStateL]
      omega
    · have hb := edgesL_bounds ws st.world_counter entity pr h1
      have hentlt := h.1 entity hent
      simp only [expandedStateL]
      rcases hb.2.2 with h2 | h2 <;> omega

theorem register_node_fresh (st : BuildState) (h : Inv st) :
    st.tree.register_node st.world_counter =
      Tree.mk (st.tree.registered ++ [st.world_counter]) st.tree.parents := by
  have hfresh : st.world_counter ∉ st.tree.registered := fun hmem =>
    absurd (h.1 _ hmem) (Nat.lt_irrefl _)
  simp [Tree.register_node, hfresh]

theorem append_child_fresh (reg : List Nat) (par : List (Nat × Nat))
    (p c : Nat) (hp : p ∈ reg) (hc : c ∈ reg)
    (hnone : par.lookup c = none) :
    Tree.append_child (Tree.mk reg par) p c =
      Except.ok (Tree.mk reg (par ++ [(c, p)])) := by
  unfold Tree.append_child Tree.parentOf
  rw [if_pos ⟨hp, hc⟩]
  dsimp only
  rw [hnone]
  rfl

theorem parents_lookup_none (par : List (Nat × Nat)) (w : Widget) (n c : Nat)
    (hpar : ∀ pr ∈ par, pr.1 < c) (hcn : c ≤ n) :
    (par ++ edgesW w n).lookup c = none := by
  rw [List.lookup_append, lookup_none_keys_lt par c hpar,
    lookup_none_keys_gt]
  · rfl
  · intro pr hpr
    have := edgesW_bounds w n pr hpr
    omega

mutual
/-- The exact effect of `expand`: under the freshness invariant, expanding
`w` returns the entity `world_counter` and advances the state by exactly
the registrations, edges and component attachments described by
`expandedState` — in particular every `append_child` performed succeeds. -/
theorem expand_spec : ∀ (st : BuildState) (w : Widget) (parent : Nat),
    Inv st → expand st w parent = (st.world_counter, expandedState st w)
  | st, Widget.mk props Template.Leaf, parent, hInv => by
    have hreg := register_node_fresh st hInv
    simp only [expand, hreg, expandedState, countW, countT, edgesW, edgesT,
      compsW, compsT, List.range'_succ, List.range']
    simp
  | st, Widget.mk props (Template.Single child), parent, hInv => by
    have hreg := register_node_fresh st hInv
    have hc1 := countW_pos child
    have hInv1 : Inv (BuildState.mk (st.world_counter + 1)
        (st.entity_counter + 1)
        (Tree.mk (st.tree.registered ++ [st.world_counter]) st.tree.parents)
        (st.comps ++ [(st.world_counter, [Component.rect 10 10 200 50,
          Component.layout, Component.entityId st.entity_counter] ++
            props)])) := by
      constructor
      · intro e he
        dsimp only at he ⊢
        rcases List.mem_append.mp he with h1 | h1
        · have := hInv.1 e h1
          omega
        · have he' : e = st.world_counter := by simpa using h1
          omega
      · intro pr hpr
        dsimp only at hpr ⊢
        have := hInv.2 pr hpr
        omega
    have hrec := expand_spec (BuildState.mk (st.world_counter + 1)
        (st.entity_counter + 1)
        (Tree.mk (st.tree.registered ++ [st.world_counter]) st.tree.parents)
        (st.comps ++ [(st.world_counter, [Component.rect 10 10 200 50,
          Component.layout, Component.entityId st.entity_counter] ++
            props)])) child parent hInv1
    simp only [expand, hreg]
    rw [hrec]
    dsimp only [expandedState]
    have happ := append_child_fresh
      ((st.tree.registered ++ [st.world_counter]) ++
        List.range' (st.world_counter + 1) (countW child))
      (st.tree.parents ++ edgesW child (st.world_counter + 1))
      st.world_counter (st.world_counter + 1)
      (by simp)
      (by
        refine List.mem_append.mpr (Or.inr ?_)
        exact mem_range1.mpr ⟨Nat.le_refl _, by omega⟩)
      (parents_lookup_none st.tree.parents child (st.world_counter + 1)
        (st.world_counter + 1)
        (fun pr hpr => by have := hInv.2 pr hpr; omega) (Nat.le_refl _))
    rw [happ]
    simp only [discardAppendError]
    rw [Prod.mk.injEq, BuildState.mk.injEq, Tree.mk.injEq]
    refine ⟨rfl, ?_, ?_, ⟨?_, ?_⟩, ?_⟩
    · simp only [expandedState, countW, countT]
      omega
    · simp only [expandedState, countW, countT]
      omega
    · simp only [expandedState, countW, countT]
      have h1 : 1 + countW child = countW child + 1 := Nat.add_comm _ _
      rw [h1, List.range'_succ, List.append_assoc, List.singleton_append]
    · simp only [expandedState, edgesW, edgesT, List.append_assoc]
    · simp only [expandedState, countW, countT, compsW, compsT,
        List.append_assoc, List.singleton_append]
  | st, Widget.mk props (Template.Mutli cs), parent, hInv => by
    have hreg := register_node_fresh st hInv
    have hInv1 : Inv (BuildState.mk (st.world_counter + 1)
        (st.entity_counter + 1)
        (Tree.mk (st.tree.registered ++ [st.world_counter]) st.tree.parents)
        (st.comps ++ [(st.world_counter, [Component.rect 10 10 200 50,
          Component.layout, Component.entityId st.entity_counter] ++
            props)])) := by
      constructor
      · intro e he
        dsimp only at he ⊢
        rcases List.mem_append.mp he with h1 | h1
        · have := hInv.1 e h1
          omega
        · have he' : e = st.world_counter := by simpa using h1
          omega
      · intro pr hpr
        dsimp only at hpr ⊢
        have := hInv.2 pr hpr
        omega
    have hrec := expandAll_spec (BuildState.mk (st.world_counter + 1)
        (st.entity_counter + 1)
        (Tree.mk (st.tree.registered ++ [st.world_counter]) st.tree.parents)
        (st.comps ++ [(st.world_counter, [Component.rect 10 10 200 50,
          Component.layout, Component.entityId st.entity_counter] ++
            props)])) cs parent st.world_counter hInv1 (by simp)
    simp only [expand, hreg]
    rw [hrec]
    dsimp only [expandedStateL]
    rw [Prod.mk.injEq, BuildState.mk.injEq, Tree.mk.injEq]
    refine ⟨rfl, ?_, ?_, ⟨?_, ?_⟩, ?_⟩
    · simp only [expandedState, countW, countT]
      omega
    · simp only [expandedState, countW, countT]
      omega
    · simp only [expandedState, countW, countT]
      have h1 : 1 + countL cs = countL cs + 1 := Nat.add_comm _ _
      rw [h1, List.range'_succ, List.append_assoc, List.singleton_append]
    · simp only [expandedState, edgesW, edgesT]
    · simp only [expandedState, countW, countT, compsW, compsT,
        List.append_assoc, List.singleton_append]

/-- The exact effect of the `for child in children` loop: each child is
expanded and successfully appended under `entity`. -/
theorem expandAll_spec : ∀ (st : BuildState) (ws : WidgetList)
    (parent entity : Nat), Inv st → entity ∈ st.tree.registered →
    expandAll st ws parent entity = expandedStateL st ws entity
  | st, WidgetList.nil, parent, entity, hInv, hent => by
    simp only [expandAll, expandedStateL, countL, edgesL, compsL,
      List.range']
    simp
  | st, WidgetList.cons c r, parent, entity, hInv, hent => by
    have hc1 := countW_pos c
    have hrec1 := expand_spec st c parent hInv
    simp only [expandAll]
    rw [hrec1]
    dsimp only [expandedState]
    have happ := append_child_fresh
      (st.tree.registered ++ List.range' st.world_counter (countW c))
      (st.tree.parents ++ edgesW c st.world_counter)
      entity st.world_counter
      (List.mem_append.mpr (Or.inl hent))
      (by
        refine List.mem_append.mpr (Or.inr ?_)
        exact mem_range1.mpr ⟨Nat.le_refl _, by omega⟩)
      (parents_lookup_none st.tree.parents c st.world_counter
        st.world_counter
        (fun pr hpr => by have := hInv.2 pr hpr; omega) (Nat.le_refl _))
    rw [happ]
    simp only [discardAppendError]
    have hInv2 : Inv (BuildState.mk (st.world_counter + countW c)
        (st.entity_counter + countW c)
        (Tree.mk
          (st.tree.registered ++ List.range' st.world_counter (countW c))
          ((st.tree.parents ++ edgesW c st.world_counter) ++
            [(st.world_counter, entity)]))
        (st.comps ++ compsW c st.world_counter st.entity_counter)) := by
      constructor
      · intro e he
        dsimp only at he ⊢
        rcases List.mem_append.mp he with h1 | h1
        · have := hInv.1 e h1
          omega
        · have := mem_range1.mp h1
          omega
      · intro pr hpr
        dsimp only at hpr ⊢
        rcases List.mem_append.mp hpr with h1 | h1
        · rcases List.mem_append.mp h1 with h2 | h2
          · have := hInv.2 pr h2
            omega
          · have := edgesW_bounds c st.world_counter pr h2
            omega
        · have hpr' : pr = (st.world_counter, entity) := by simpa using h1
          subst hpr'
          have := hInv.1 entity hent
          dsimp only
          omega
    have hrec2 := expandAll_spec (BuildState.mk
        (st.world_counter + countW c) (st.entity_counter + countW c)
        (Tree.mk
          (st.tree.registered ++ List.range' st.world_counter (countW c))
          ((st.tree.parents ++ edgesW c st.world_counter) ++
            [(st.world_counter, entity)]))
        (st.comps ++ compsW c st.world_counter st.entity_counter))
      r parent entity hInv2 (by
        dsimp only
        exact List.mem_append.mpr (Or.inl hent))
    rw [hrec2]
    dsimp only [expandedStateL]
    rw [BuildState.mk.injEq, Tree.mk.injEq]
    refine ⟨?_, ?_, ⟨?_, ?_⟩, ?_⟩
    · simp only [countL]
      omega
    · simp only [countL]
      omega
    · simp only [countL]
      rw [List.append_assoc]
      have hra : List.range' st.world_counter (countW c) ++
          List.range' (st.world_counter + countW c) (countL r) =
          List.range' st.world_counter (countW c + countL r) := by
        have := List.range'_append_1 st.world_counter (countW c) (countL r)
        rw [this, Nat.add_comm]
      rw [hra]
    · simp only [countL, edgesL, List.append_assoc]
    · simp only [countL, compsL, List.append_assoc]
end

theorem filter_edgesW_none (w : Widget) (n k : Nat)
    (hk : k < n ∨ n + countW w ≤ k) :
    (edgesW w n).filter (fun pr => pr.2 == k) = [] := by
  rw [List.filter_eq_nil_iff]
  intro pr hpr
  have := edgesW_bounds w n pr hpr
  simp only [beq_iff_eq]
  omega

theorem filter_edgesL_none (ws : WidgetList) (m p k : Nat)
    (hk : k < m ∨ m + countL ws ≤ k) (hkp : k ≠ p) :
    (edgesL ws m p).filter (fun pr => pr.2 == k) = [] := by
  rw [List.filter_eq_nil_iff]
  intro pr hpr
  have := edgesL_bounds ws m p pr hpr
  simp only [beq_iff_eq]
  rcases this.2.2 with h2 | h2 <;> omega

theorem filter_edgesL_self : ∀ (ws : WidgetList) (m p : Nat), p < m →
    (edgesL ws m p).filter (fun pr => pr.2 == p) =
      (rootsL ws m).map (fun c => (c, p))
  | WidgetList.nil, m, p, hp => by simp [edgesL, rootsL]
  | WidgetList.cons c r, m, p, hp => by
    have hc1 := countW_pos c
    have hrec := filter_edgesL_self r (m + countW c) p (by omega)
    simp only [edgesL, rootsL, List.filter_append, List.map_cons]
    rw [filter_edgesW_none c m p (Or.inl hp), hrec]
    simp

theorem childEdges_self (props : List Component) (t : Template) (n : Nat) :
    (edgesT t n).filter (fun pr => pr.2 == n) =
      (declaredChildRoots (Widget.mk props t) n).map (fun c => (c, n)) := by
  cases t with
  | Leaf => simp [edgesT, declaredChildRoots]
  | Single c =>
    simp only [edgesT, declaredChildRoots, List.filter_append, List.map_cons,
      List.map_nil]
    rw [filter_edgesW_none c (n + 1) n (Or.inl (by omega))]
    simp
  | Mutli cs =>
    simp only [edgesT, declaredChildRoots]
    exact filter_edgesL_self cs (n + 1) n (by omega)

mutual
theorem childEdges_W : ∀ (w : Widget) (n k : Nat) (sub : Widget),
    (k, sub) ∈ subnodesW w n →
    (edgesW w n).filter (fun pr => pr.2 == k) =
      (declaredChildRoots sub k).map (fun c => (c, k))
  | Widget.mk props t, n, k, sub, h => by
    simp only [subnodesW] at h
    rcases List.mem_cons.mp h with h1 | h1
    · have hk : k = n := congrArg Prod.fst h1
      have hsub : sub = Widget.mk props t := congrArg Prod.snd h1
      subst hk
      subst hsub
      exact childEdges_self props t k
    · exact childEdges_T t n k sub h1

theorem childEdges_T : ∀ (t : Template) (n k : Nat) (sub : Widget),
    (k, sub) ∈ subnodesT t (n + 1) →
    (edgesT t n).filter (fun pr => pr.2 == k) =
      (declaredChildRoots sub k).map (fun c => (c, k))
  | Template.Leaf, n, k, sub, h => by simp [subnodesT] at h
  | Template.Single c, n, k, sub, h => by
    simp only [subnodesT] at h
    have hb := subnodesW_bounds c (n + 1) k sub h
    simp only [edgesT, List.filter_append]
    rw [childEdges_W c (n + 1) k sub h]
    have : ([(n + 1, n)] : List (Nat × Nat)).filter
        (fun pr => pr.2 == k) = [] := by
      simp only [List.filter_eq_nil_iff]
      intro pr hpr
      have hpr' : pr = (n + 1, n) := by simpa using hpr
      subst hpr'
      simp only [beq_iff_eq]
      omega
    rw [this]
    simp
  | Template.Mutli cs, n, k, sub, h => by
    simp only [subnodesT] at h
    simp only [edgesT]
    exact childEdges_L cs (n + 1) n k sub h (by omega)

theorem childEdges_L : ∀ (ws : WidgetList) (m p k : Nat) (sub : Widget),
    (k, sub) ∈ subnodesL ws m → p < m →
    (edgesL ws m p).filter (fun pr => pr.2 == k) =
      (declaredChildRoots sub k).map (fun c => (c, k))
  | WidgetList.nil, m, p, k, sub, h, hp => by simp [subnodesL] at h
  | WidgetList.cons c r, m, p, k, sub, h, hp => by
    have hc1 := countW_pos c
    have hc1s := countW_pos sub
    simp only [subnodesL] at h
    simp only [edgesL, List.filter_append]
    rcases List.mem_append.mp h with h1 | h1
    · have hb := subnodesW_bounds c m k sub h1
      rw [childEdges_W c m k sub h1]
      have hsingle : ([(m, p)] : List (Nat × Nat)).filter
          (fun pr => pr.2 == k) = [] := by
        simp only [List.filter_eq_nil_iff]
        intro pr hpr
        have hpr' : pr = (m, p) := by simpa using hpr
        subst hpr'
        simp only [beq_iff_eq]
        omega
      rw [hsingle, filter_edgesL_none r (m + countW c) p k
        (Or.inl (by omega)) (by omega)]
      simp
    · have hb := subnodesL_bounds r (m + countW c) k sub h1
      rw [filter_edgesW_none c m k (Or.inr (by omega))]
      have hsingle : ([(m, p)] : List (Nat × Nat)).filter
          (fun pr => pr.2 == k) = [] := by
        simp only [List.filter_eq_nil_iff]
        intro pr hpr
        have hpr' : pr = (m, p) := by simpa using hpr
        subst hpr'
        simp only [beq_iff_eq]
        omega
      rw [hsingle, childEdges_L r (m + countW c) p k sub h1 (by omega)]
      simp
end

theorem lookup_edgesW_none (w : Widget) (n k : Nat)
    (hk : k ≤ n ∨ n + countW w ≤ k) :
    (edgesW w n).lookup k = none := by
  rw [List.lookup_eq_none_iff]
  intro pr hpr
  have := edgesW_bounds w n pr hpr
  simp only [bne_iff_ne, ne_eq]
  omega

theorem lookup_edgesL_none (ws : WidgetList) (m p k : Nat)
    (hk : k < m ∨ m + countL ws ≤ k) :
    (edgesL ws m p).lookup k = none := by
  rw [List.lookup_eq_none_iff]
  intro pr hpr
  have := edgesL_bounds ws m p pr hpr
  simp only [bne_iff_ne, ne_eq]
  omega

theorem lookup_edgesL_roots : ∀ (ws : WidgetList) (m p : Nat),
    ∀ c ∈ rootsL ws m, (edgesL ws m p).lookup c = some p
  | WidgetList.nil, m, p, c, h => by simp [rootsL] at h
  | WidgetList.cons c0 r, m, p, c, h => by
    have hc1 := countW_pos c0
    simp only [rootsL] at h
    simp only [edgesL, List.lookup_append]
    rcases List.mem_cons.mp h with h1 | h1
    · subst h1
      rw [lookup_edgesW_none c0 c c (Or.inl (Nat.le_refl c))]
      simp
    · have hb := rootsL_bounds r (m + countW c0) c h1
      rw [lookup_edgesW_none c0 m c (Or.inr (by omega))]
      have hne : (([(m, p)] : List (Nat × Nat)).lookup c) = none := by
        rw [List.lookup_eq_none_iff]
        intro pr hpr
        have hpr' : pr = (m, p) := by simpa using hpr
        subst hpr'
        simp only [bne_iff_ne, ne_eq]
        omega
      rw [lookup_edgesL_roots r (m + countW c0) p c h1]
      simp [hne]

theorem lookup_childRoots_self (props : List Component) (t : Template)
    (n : Nat) : ∀ c ∈ declaredChildRoots (Widget.mk props t) n,
    (edgesT t n).lookup c = some n := by
  cases t with
  | Leaf => simp [declaredChildRoots]
  | Single ch =>
    intro c hc
    have hc' : c = n + 1 := by simpa [declaredChildRoots] using hc
    subst hc'
    simp only [edgesT, List.lookup_append]
    rw [lookup_edgesW_none ch (n + 1) (n + 1) (Or.inl (Nat.le_refl _))]
    simp
  | Mutli cs =>
    intro c hc
    simp only [declaredChildRoots] at hc
    simp only [edgesT]
    exact lookup_edgesL_roots cs (n + 1) n c hc

mutual
theorem lookupEdges_W : ∀ (w : Widget) (n k : Nat) (sub : Widget),
    (k, sub) ∈ subnodesW w n → ∀ c ∈ declaredChildRoots sub k,
    (edgesW w n).lookup c = some k
  | Widget.mk props t, n, k, sub, h, c, hc => by
    simp only [subnodesW] at h
    rcases List.mem_cons.mp h with h1 | h1
    · have hk : k = n := congrArg Prod.fst h1
      have hsub : sub = Widget.mk props t := congrArg Prod.snd h1
      subst hk
      subst hsub
      exact lookup_childRoots_self props t k c hc
    · exact lookupEdges_T t n k sub h1 c hc

theorem lookupEdges_T : ∀ (t : Template) (n k : Nat) (sub : Widget),
    (k, sub) ∈ subnodesT t (n + 1) → ∀ c ∈ declaredChildRoots sub k,
    (edgesT t n).lookup c = some k
  | Template.Leaf, n, k, sub, h, c, hc => by simp [subnodesT] at h
  | Template.Single ch, n, k, sub, h, c, hc => by
    simp only [subnodesT] at h
    simp only [edgesT, List.lookup_append]
    rw [lookupEdges_W ch (n + 1) k sub h c hc]
    rfl
  | Template.Mutli cs, n, k, sub, h, c, hc => by
    simp only [subnodesT] at h
    simp only [edgesT]
    exact lookupEdges_L cs (n + 1) n k sub h c hc

theorem lookupEdges_L : ∀ (ws : WidgetList) (m p k : Nat) (sub : Widget),
    (k, sub) ∈ subnodesL ws m → ∀ c ∈ declaredChildRoots sub k,
    (edgesL ws m p).lookup c = some k
  | WidgetList.nil, m, p, k, sub, h, c, hc => by simp [subnodesL] at h
  | WidgetList.cons c0 r, m, p, k, sub, h, c, hc => by
    have hc1 := countW_pos c0
    simp only [subnodesL] at h
    simp only [edgesL, List.lookup_append]
    rcases List.mem_append.mp h with h1 | h1
    · rw [lookupEdges_W c0 m k sub h1 c hc]
      rfl
    · have hb := subnodesL_bounds r (m + countW c0) k sub h1
      have hcb := declaredChildRoots_bounds sub k c hc
      rw [lookup_edgesW_none c0 m c (Or.inr (by omega))]
      have hne : (([(m, p)] : List (Nat × Nat)).lookup c) = none := by
        rw [List.lookup_eq_none_iff]
        intro pr hpr
        have hpr' : pr = (m, p) := by simpa using hpr
        subst hpr'
        simp only [bne_iff_ne, ne_eq]
        omega
      rw [lookupEdges_L r (m + countW c0) p k sub h1 c hc]
      simp [hne]
end

theorem Inv_initial : Inv initialBuildState := by
  constructor
  · intro e he
    simp [initialBuildState, Tree.empty] at he
  · intro pr hpr
    simp [initialBuildState, Tree.empty] at hpr

theorem rootExpand_eq (w : Widget) :
    rootExpand w = (0, expandedState initialBuildState w) := by
  unfold rootExpand
  exact expand_spec initialBuildState w 0 Inv_initial

/-- Claim C5: tree expansion creates one entity per template node (the
registered nodes are exactly `0, ..., countW w - 1`, in creation order),
and for every template node — expanded at entity `k` — the tree's ordered
child list of `k` is exactly the list of root entities of its declared
template children (`Single`: the one child; `Mutli`: each child in declared
order; `Leaf` and every other variant: none), and each of those children
has parent `k`. -/
theorem tree_expansion_matches_template (w : Widget) :
    (rootExpand w).2.tree.registered = List.range (countW w) ∧
    (∀ k sub, (k, sub) ∈ subnodesW w 0 →
      Tree.children (rootExpand w).2.tree k = declaredChildRoots sub k ∧
      ∀ c ∈ declaredChildRoots sub k,
        Tree.parentOf (rootExpand w).2.tree c = some k) := by
  rw [rootExpand_eq w]
  constructor
  · show ([] : List Nat) ++ List.range' 0 (countW w) = List.range (countW w)
    rw [List.nil_append, List.range_eq_range']
  · intro k sub h
    constructor
    · show ((([] : List (Nat × Nat)) ++ edgesW w 0).filter
          (fun pr => pr.2 == k)).map Prod.fst = declaredChildRoots sub k
      rw [List.nil_append, childEdges_W w 0 k sub h, List.map_map]
      have hid : (Prod.fst ∘ fun c : Nat => (c, k)) = id := rfl
      rw [hid, List.map_id]
    · intro c hc
      show (([] : List (Nat × Nat)) ++ edgesW w 0).lookup c = some k
      rw [List.nil_append]
      exact lookupEdges_W w 0 k sub h c hc

/-- The spec's end-to-end example template: a container with a single leaf
child. -/
def containerLeafWidget : Widget :=
  Widget.mk [] (Template.Single (Widget.mk [] Template.Leaf))

/-- Witness for C5 on the two-level container/leaf template: the container
is entity 0, its child list is exactly the declared one, and the leaf child
entity 1 has parent 0. -/
theorem tree_expansion_matches_template_witness :
    Tree.children (rootExpand containerLeafWidget).2.tree 0 =
      declaredChildRoots containerLeafWidget 0 ∧
    Tree.parentOf (rootExpand containerLeafWidget).2.tree 1 = some 0 := by
  have h := (tree_expansion_matches_template containerLeafWidget).2 0
    containerLeafWidget (by
      simp only [containerLeafWidget, subnodesW]
      exact List.mem_cons_self _ _)
  refine ⟨h.1, h.2 1 ?_⟩
  show (1 : Nat) ∈ declaredChildRoots containerLeafWidget 0
  simp [containerLeafWidget, declaredChildRoots]

/-- A pre-populated tree on which expansion's discarded `append_child`
error becomes reachable: entity 1 is already registered with parent 5, and
the world allocator is about to hand out ids 0 and 1. -/
def preParentedState : BuildState :=
  BuildState.mk 0 0 (Tree.mk [5, 1] [(1, 5)]) []

/-- Claim C7 (refuting evidence): expanding a `Single`-child template on
`preParentedState` reaches an `append_child` call that fails with
`TreeError::AlreadyParented`, yet `expand` discards the error
(`let _result = ...`), completes the subtree normally and returns the root
entity — the failure neither surfaces nor aborts construction, and the
child keeps its old parent 5 instead of being attached to the new node 0. -/
theorem expand_discards_append_child_error :
    Tree.append_child (Tree.mk [5, 1, 0] [(1, 5)]) 0 1 =
      Except.error TreeError.AlreadyParented ∧
    expand preParentedState containerLeafWidget 0 =
      (0, BuildState.mk 2 2 (Tree.mk [5, 1, 0] [(1, 5)])
        [(0, [Component.rect 10 10 200 50, Component.layout,
          Component.entityId 0]),
         (1, [Component.rect 10 10 200 50, Component.layout,
          Component.entityId 1])]) ∧
    Tree.parentOf (expand preParentedState containerLeafWidget 0).2.tree 1 =
      some 5 := by
  refine ⟨rfl, rfl, rfl⟩

/-- Mirror of the `with_filter` closure registered in `WidgetManager::new`:
a single component is a match when it downcasts to `Drawable`. -/
def isDrawable : Component → Bool
  | Component.drawable => true
  | _ => false

/-- Mirror of the `with_filter` closure's loop: iterate the entity's
components and return `true` as soon as one downcasts to `Drawable`,
otherwise `false`. -/
def renderFilter (comps : List Component) : Bool :=
  comps.any isDrawable

/-- The `downcast_ref::<EntityId>()` of a component. -/
def componentEntityId : Component → Option Nat
  | Component.entityId n => some n
  | _ => none

/-- Mirror of the `with_sort` closure registered in `WidgetManager::new`:
downcast both components to `EntityId`, returning `None` ("incomparable")
as soon as either downcast fails, and `Some(id_a.0.cmp(&id_b.0))`
otherwise. -/
def renderSortComp (comp_a comp_b : Component) : Option Ordering :=
  match componentEntityId comp_a with
  | none => none
  | some id_a =>
    match componentEntityId comp_b with
    | none => none
    | some id_b => some (compare id_a id_b)

/-- The first `EntityId` component of an entity's component set. -/
def entityIdOf (comps : List Component) : Option Nat :=
  comps.findSome? componentEntityId

/-- The `with_sort` closure lifted to two entities' component sets: the
framework hands the closure each entity's `EntityId` component; when either
set has none the downcast fails and the comparator yields "incomparable"
(`none`). -/
def renderSortEntities (ca cb : List Component) : Option Ordering :=
  match entityIdOf ca, entityIdOf cb with
  | some a, some b => some (compare a b)
  | _, _ => none

/-- When both entities carry an `EntityId`, the lifted comparator agrees
with the source closure applied to those two components. -/
theorem renderSortEntities_eq_comp (ca cb : List Component) (a b : Nat)
    (ha : entityIdOf ca = some a) (hb : entityIdOf cb = some b) :
    renderSortEntities ca cb =
      renderSortComp (Component.entityId a) (Component.entityId b) := by
  simp [renderSortEntities, renderSortComp, componentEntityId, ha, hb]

/-- The sort key the comparator orders by: the entity's `EntityId`
(creation-order id); entities without one are keyed 0, a case the render
descriptor's filter-admitted view never contains. -/
def idKey (p : Nat × List Component) : Nat :=
  (entityIdOf p.2).getD 0

/-- Ascending creation-order id, the order computed by the registered
comparator on id-carrying entities. -/
def idKeyLe (a b : Nat × List Component) : Prop :=
  idKey a ≤ idKey b

instance : DecidableRel idKeyLe :=
  fun a b => inferInstanceAs (Decidable (idKey a ≤ idKey b))

instance : IsTotal (Nat × List Component) idKeyLe :=
  ⟨fun a b => Nat.le_total (idKey a) (idKey b)⟩

instance : IsTrans (Nat × List Component) idKeyLe :=
  ⟨fun _ _ _ => Nat.le_trans⟩

/-- Modelled from the spec: the pipeline's filter+sort phase
(`world.apply_filter_and_sort()`) for the render descriptor — keep exactly
the entities admitted by the registered filter and order them with a stable
sort by the registered comparator's key. -/
def applyFilterAndSort (es : List (Nat × List Component)) :
    List (Nat × List Component) :=
  List.insertionSort idKeyLe (es.filter (fun ec => renderFilter ec.2))

mutual
theorem compsW_ids : ∀ (w : Widget) (n : Nat),
    (∀ p ∈ compsW w n n,
      entityIdOf p.2 = some p.1 ∧ n ≤ p.1 ∧ p.1 < n + countW w) ∧
    List.Pairwise (fun a b => a.1 < b.1) (compsW w n n)
  | Widget.mk props t, n => by
    have hrec := compsT_ids t (n + 1)
    have hcw : countW (Widget.mk props t) = 1 + countT t := by simp [countW]
    simp only [compsW]
    constructor
    · intro p hp
      rcases List.mem_cons.mp hp with h1 | h1
      · subst h1
        refine ⟨?_, Nat.le_refl n, by rw [hcw]; omega⟩
        simp [entityIdOf, componentEntityId, List.findSome?_cons]
      · have hb := hrec.1 p h1
        exact ⟨hb.1, by omega, by rw [hcw]; omega⟩
    · rw [List.pairwise_cons]
      refine ⟨?_, hrec.2⟩
      intro b hb
      have := (hrec.1 b hb).2.1
      dsimp only
      omega

theorem compsT_ids : ∀ (t : Template) (n : Nat),
    (∀ p ∈ compsT t n n,
      entityIdOf p.2 = some p.1 ∧ n ≤ p.1 ∧ p.1 < n + countT t) ∧
    List.Pairwise (fun a b => a.1 < b.1) (compsT t n n)
  | Template.Leaf, n => by
    constructor
    · intro p hp
      simp [compsT] at hp
    · simp [compsT]
  | Template.Single c, n => by
    have hrec := compsW_ids c n
    simp only [compsT, countT]
    exact hrec
  | Template.Mutli cs, n => by
    have hrec := compsL_ids cs n
    simp only [compsT, countT]
    exact hrec

theorem compsL_ids : ∀ (ws : WidgetList) (n : Nat),
    (∀ p ∈ compsL ws n n,
      entityIdOf p.2 = some p.1 ∧ n ≤ p.1 ∧ p.1 < n + countL ws) ∧
    List.Pairwise (fun a b => a.1 < b.1) (compsL ws n n)
  | WidgetList.nil, n => by
    constructor
    · intro p hp
      simp [compsL] at hp
    · simp [compsL]
  | WidgetList.cons c r, n => by
    have hrec1 := compsW_ids c n
    have hrec2 := compsL_ids r (n + countW c)
    simp only [compsL, countL]
    constructor
    · intro p hp
      rcases List.mem_append.mp hp with h1 | h1
      · have hb := hrec1.1 p h1
        exact ⟨hb.1, hb.2.1, by omega⟩
      · have hb := hrec2.1 p h1
        exact ⟨hb.1, by omega, by omega⟩
    · rw [List.pairwise_append]
      refine ⟨hrec1.2, hrec2.2, ?_⟩
      intro a ha b hb
      have h1 := (hrec1.1 a ha).2.2
      have h2 := (hrec2.1 b hb).2.1
      omega
end

theorem rootExpand_comps (w : Widget) :
    (rootExpand w).2.comps = compsW w 0 0 := by
  rw [rootExpand_eq w]
  show ([] : List (Nat × List Component)) ++ compsW w 0 0 = compsW w 0 0
  rw [List.nil_append]

/-- Claim C4: for every entity set the render pass's precomputed view is a
permutation of exactly the filter-admitted (Drawable-carrying) subset,
sorted by the comparator's key; and for the entity set built by tree
expansion — where every entity carries the `EntityId` equal to its
creation-order id — the view is exactly the admitted subset in strictly
ascending creation order, i.e. paint order equals declaration order. -/
theorem render_view_drawables_in_creation_order (w : Widget) :
    (∀ es : List (Nat × List Component),
      (applyFilterAndSort es).Perm
        (es.filter (fun ec => renderFilter ec.2)) ∧
      List.Sorted idKeyLe (applyFilterAndSort es)) ∧
    (∀ p ∈ (rootExpand w).2.comps, entityIdOf p.2 = some p.1) ∧
    applyFilterAndSort (rootExpand w).2.comps =
      (rootExpand w).2.comps.filter (fun ec => renderFilter ec.2) ∧
    List.Pairwise (fun a b => a.1 < b.1)
      (applyFilterAndSort (rootExpand w).2.comps) := by
  have hids := compsW_ids w 0
  have hcomps := rootExpand_comps w
  have hidall : ∀ p ∈ (rootExpand w).2.comps, entityIdOf p.2 = some p.1 := by
    intro p hp
    rw [hcomps] at hp
    exact (hids.1 p hp).1
  have hpairfilter : List.Pairwise (fun a b => a.1 < b.1)
      ((rootExpand w).2.comps.filter (fun ec => renderFilter ec.2)) := by
    rw [hcomps]
    exact List.Pairwise.sublist (List.filter_sublist _) hids.2
  have hsortedfilter : List.Sorted idKeyLe
      ((rootExpand w).2.comps.filter (fun ec => renderFilter ec.2)) := by
    refine List.Pairwise.imp_of_mem ?_ hpairfilter
    intro a b ha hb hlt
    have hida := hidall a (List.mem_of_mem_filter ha)
    have hidb := hidall b (List.mem_of_mem_filter hb)
    show idKey a ≤ idKey b
    rw [idKey, idKey, hida, hidb]
    simp only [Option.getD_some]
    omega
  have heq : applyFilterAndSort (rootExpand w).2.comps =
      (rootExpand w).2.comps.filter (fun ec => renderFilter ec.2) :=
    List.Sorted.insertionSort_eq hsortedfilter
  refine ⟨?_, hidall, heq, ?_⟩
  · intro es
    exact ⟨List.perm_insertionSort idKeyLe _,
      List.sorted_insertionSort idKeyLe _⟩
  · rw [heq]
    exact hpairfilter

/-- A two-node template whose nodes both declare the Drawable marker. -/
def drawablePairWidget : Widget :=
  Widget.mk [Component.drawable]
    (Template.Single (Widget.mk [Component.drawable] Template.Leaf))

/-- Witness for C4: on a concrete two-node drawable template, the view
equals the admitted subset in declaration order. -/
theorem render_view_drawables_witness :
    applyFilterAndSort (rootExpand drawablePairWidget).2.comps =
      (rootExpand drawablePairWidget).2.comps.filter
        (fun ec => renderFilter ec.2) :=
  (render_view_drawables_in_creation_order drawablePairWidget).2.2.1

/-- Claim C6: for the render descriptor registered by `WidgetManager::new`,
two filter-admitted entities of a tree-built entity set never yield an
incomparable result — every entity the tree builder creates carries an
`EntityId`, so the comparator always returns the comparison of the two
creation-order ids (never `None`), and the `OrderingError` case cannot
arise. -/
theorem render_comparator_total_on_admitted (w : Widget) (e1 e2 : Nat)
    (cs1 cs2 : List Component)
    (h1 : (e1, cs1) ∈ (rootExpand w).2.comps)
    (h2 : (e2, cs2) ∈ (rootExpand w).2.comps)
    (hf1 : renderFilter cs1 = true) (hf2 : renderFilter cs2 = true) :
    renderSortEntities cs1 cs2 = some (compare e1 e2) := by
  have hids := compsW_ids w 0
  rw [rootExpand_comps w] at h1 h2
  have hid1 := (hids.1 (e1, cs1) h1).1
  have hid2 := (hids.1 (e2, cs2) h2).1
  simp only at hid1 hid2
  rw [renderSortEntities, hid1, hid2]

/-- Witness for C6: on the concrete two-node drawable template the
comparator orders the two admitted entities by their creation ids. -/
theorem render_comparator_total_witness :
    renderSortEntities
      [Component.rect 10 10 200 50, Component.layout, Component.entityId 0,
        Component.drawable]
      [Component.rect 10 10 200 50, Component.layout, Component.entityId 1,
        Component.drawable] = some Ordering.lt := by
  have h := render_comparator_total_on_admitted drawablePairWidget 0 1
    [Component.rect 10 10 200 50, Component.layout, Component.entityId 0,
      Component.drawable]
    [Component.rect 10 10 200 50, Component.layout, Component.entityId 1,
      Component.drawable]
    (by rw [rootExpand_comps]; decide) (by rw [rootExpand_comps]; decide)
    (by decide) (by decide)
  exact h

end Orbtk
